import Mathlib

/-!
Verification of the neural-fabric simulation core and its memory-consolidation
subsystem (files `AI_Infant/src/neural_fabric.py`, `AI_Infant/src/memory_core.py`,
and the legacy variant `src/neural_fabric.py`).

Modelling conventions:
* Python floats are modelled as exact rationals (`ℚ`); all constants of the
  source (0.1, 0.7, 0.9, 0.99, 0.01, 1e-12, 5e-10, …) are exact rationals, so
  no floating-point rounding is modelled.
* Python dicts are modelled as association lists in insertion order; dict
  assignment is an upsert (`dictInsert`), `dict.get` is `List.find?` on the key.
* `time.time()` is an input: operations that read the wall clock take the
  current time `now : ℚ` as an explicit argument.
* Python exceptions are modelled with `Except` paired with the post-call state
  (mutations made before the raise are retained in the returned state).
* Fields of the source that only feed per-neuron wattage diagnostics which no
  modelled operation reads (`last_fired_time`, `activation_history`,
  `created_time`, `total_energy_joules`) are omitted from the `Neuron` model.
-/

set_option allowUnsafeReducibility true in
attribute [semireducible] Rat.add Rat.mul Rat.inv Rat.sub Rat.div

namespace Jarvis

/-- `JOULES_PER_SYNAPSE_UPDATE = 5e-10` from `neural_fabric.py`. -/
def JOULES_PER_SYNAPSE_UPDATE : ℚ := 5 / 10 ^ 10

/-- `WATTS_IDLE_PER_NEURON = 1e-12` from `neural_fabric.py`. -/
def WATTS_IDLE_PER_NEURON : ℚ := 1 / 10 ^ 12

/-- `class Neuron`: a leaky integrate-and-fire unit.  Wall-clock bookkeeping
fields that no modelled operation reads are omitted (see file header). -/
structure Neuron where
  uid : ℕ
  zone : String
  activation_potential : ℚ
  threshold : ℚ
deriving DecidableEq

/-- `Neuron.__init__`: potential 0, threshold 1. -/
def Neuron.init (uid : ℕ) (zone : String) : Neuron :=
  { uid := uid, zone := zone, activation_potential := 0, threshold := 1 }

/-- `Neuron.receive_signal`: adds the incoming weight to the potential. -/
def Neuron.receive_signal (n : Neuron) (weight : ℚ) : Neuron :=
  { n with activation_potential := n.activation_potential + weight }

/-- `Neuron.step`: fire (reset to 0) when potential ≥ threshold, else decay by
0.9.  Returns the fired flag together with the updated neuron. -/
def Neuron.stepFire (n : Neuron) : Bool × Neuron :=
  if n.threshold ≤ n.activation_potential then
    (true, { n with activation_potential := 0 })
  else
    (false, { n with activation_potential := n.activation_potential * (9 / 10) })

/-- `class Synapse`: a weighted directed link between two unit ids. -/
structure Synapse where
  source_uid : ℕ
  target_uid : ℕ
  weight : ℚ
  last_update_joules : ℚ
deriving DecidableEq

/-- `Synapse.update_weight_hebbian(learning_rate=0.01)`:
weight := min(1, weight + learning_rate); records the update energy. -/
def Synapse.update_weight_hebbian (s : Synapse) (learning_rate : ℚ) : Synapse :=
  { s with weight := min 1 (s.weight + learning_rate),
           last_update_joules := JOULES_PER_SYNAPSE_UPDATE }

/-- `PowerBudgetExceededError`, carrying the offending rolling average and the
configured budget (the Python message interpolates exactly these two values). -/
structure PowerBudgetExceededError where
  rolling : ℚ
  budget : ℚ
deriving DecidableEq

/-- Python dict assignment `d[k] = v` on an insertion-ordered association list:
overwrite in place if the key is present, else append. -/
def dictInsert {α β : Type} [DecidableEq α] (l : List (α × β)) (k : α) (v : β) :
    List (α × β) :=
  if l.any (fun p => decide (p.1 = k)) then
    l.map (fun p => if p.1 = k then (k, v) else p)
  else
    l ++ [(k, v)]

/-- `class NeuralFabric`: units, links, zones, symbol table and the power
governor state.  The nested dict `{source: {target: Synapse}}` is flattened to
one association list keyed by the (source, target) pair, which is in bijection
with the nested form because inner keys are unique per outer key. -/
structure NeuralFabric where
  max_neurons : ℕ
  power_budget_watts : ℚ
  neurons : List (ℕ × Neuron)
  synapses : List Synapse
  zones : List (String × Finset ℕ)
  symbol_table : List (String × Finset ℕ)
  last_power_check_time : ℚ
  rolling_avg_power : ℚ
deriving DecidableEq

/-- `uid in self.neurons` (dict key test). -/
def NeuralFabric.hasNeuron (f : NeuralFabric) (uid : ℕ) : Bool :=
  f.neurons.any (fun p => decide (p.1 = uid))

/-- `self.neurons.get(uid)`: lookup of a unit by id. -/
def NeuralFabric.neuron? (f : NeuralFabric) (uid : ℕ) : Option Neuron :=
  (f.neurons.find? (fun p => decide (p.1 = uid))).map Prod.snd

/-- The key test of the flattened link table: does a stored link have the
ordered pair `(a, b)` as its endpoints? -/
def synKey (a b : ℕ) (s : Synapse) : Bool :=
  decide (s.source_uid = a) && decide (s.target_uid = b)

/-- Lookup of `self.synapses[a][b]` as an optional value. -/
def NeuralFabric.syn? (f : NeuralFabric) (a b : ℕ) : Option Synapse :=
  f.synapses.find? (synKey a b)

/-- The weight of the link `a → b`, when that link exists. -/
def NeuralFabric.weight? (f : NeuralFabric) (a b : ℕ) : Option ℚ :=
  (f.syn? a b).map Synapse.weight

/-- Number of stored links for the ordered pair `(a, b)`. -/
def NeuralFabric.linkCount (f : NeuralFabric) (a b : ℕ) : ℕ :=
  f.synapses.countP (synKey a b)

/-- `NeuralFabric._check_power_budget`: raises `PowerBudgetExceededError` when
the rolling average strictly exceeds the budget. -/
def NeuralFabric.check_power_budget (f : NeuralFabric) :
    Except PowerBudgetExceededError Unit :=
  if f.power_budget_watts < f.rolling_avg_power then
    .error ⟨f.rolling_avg_power, f.power_budget_watts⟩
  else
    .ok ()

/-- `defaultdict(set)` update `self.zones[zone].add(uid)`. -/
def zonesAdd (zs : List (String × Finset ℕ)) (zone : String) (uid : ℕ) :
    List (String × Finset ℕ) :=
  if zs.any (fun p => decide (p.1 = zone)) then
    zs.map (fun p => if p.1 = zone then (p.1, insert uid p.2) else p)
  else
    zs ++ [(zone, {uid})]

/-- The allocation loop of `add_neurons`: unit ids `start_uid + i` for the
indices `i` of the list. -/
def growFold (zone : String) (start_uid : ℕ) (f : NeuralFabric) (l : List ℕ) :
    NeuralFabric :=
  l.foldl (fun g i =>
    { g with neurons := dictInsert g.neurons (start_uid + i)
               (Neuron.init (start_uid + i) zone),
             zones := zonesAdd g.zones zone (start_uid + i) }) f

/-- `NeuralFabric.add_neurons(n, zone)`: refuses (raises, leaving the state
unchanged) when the capacity would be exceeded or the power budget is already
exceeded; otherwise allocates `n` units with contiguous ids starting at the
current unit count.  The two raising branches mutate nothing before raising,
so they are modelled as returning the state unchanged. -/
def NeuralFabric.add_neurons (f : NeuralFabric) (n : ℕ) (zone : String) :
    NeuralFabric :=
  if f.max_neurons < f.neurons.length + n then f
  else if f.power_budget_watts < f.rolling_avg_power then f
  else growFold zone f.neurons.length f (List.range n)

/-- `NeuralFabric.connect_neurons(source, target, weight)`: only acts when both
ids exist and no link is stored for the ordered pair; then appends a fresh
`Synapse` (whose `last_update_joules` starts at 0). -/
def NeuralFabric.connect_neurons (f : NeuralFabric) (source_uid target_uid : ℕ)
    (weight : ℚ) : NeuralFabric :=
  if f.hasNeuron source_uid && f.hasNeuron target_uid then
    if (f.syn? source_uid target_uid).isNone then
      { f with synapses := f.synapses ++ [⟨source_uid, target_uid, weight, 0⟩] }
    else f
  else f

/-- `NeuralFabric.activate_pattern(ids, strength)`: every existing id in the
set receives the signal; missing ids are skipped. -/
def NeuralFabric.activate_pattern (f : NeuralFabric) (neuron_ids : Finset ℕ)
    (signal_strength : ℚ) : NeuralFabric :=
  { f with neurons := f.neurons.map (fun p =>
      if p.1 ∈ neuron_ids then (p.1, p.2.receive_signal signal_strength) else p) }

/-- The fired set of one tick: ids whose `Neuron.step` returns true, i.e. whose
potential is at or above threshold before the tick. -/
def NeuralFabric.firedSet (f : NeuralFabric) : Finset ℕ :=
  ((f.neurons.filter (fun p => (p.2.stepFire).1)).map Prod.fst).toFinset

/-- Phase 1 of `step_simulation`: every unit performs `Neuron.step`. -/
def NeuralFabric.integratePass (f : NeuralFabric) : NeuralFabric :=
  { f with neurons := f.neurons.map (fun p => (p.1, (p.2.stepFire).2)) }

/-- The accumulated signal a target `u` receives in the propagation pass: the
sum of the (pre-update) weights of the links into `u` whose source fired.
Each link is visited exactly once, so the nested Python loop order is
immaterial and the effect is this sum. -/
def propagationDelta (syns : List Synapse) (fired : Finset ℕ) (u : ℕ) : ℚ :=
  ((syns.filter (fun s =>
      decide (s.source_uid ∈ fired) && decide (s.target_uid = u))).map
    Synapse.weight).sum

/-- Phases 2–3 of `step_simulation`: propagate the pre-update weights of links
out of fired sources into their targets, and apply the Hebbian update to every
link whose source and target both fired.  The unchecked Python lookup
`self.neurons[target_uid]` is modelled as an update of the existing entry;
`linksClosed` (see below) shows the lookup cannot miss on a well-formed state. -/
def NeuralFabric.propagatePass (f : NeuralFabric) (fired : Finset ℕ) :
    NeuralFabric :=
  { f with
    neurons := f.neurons.map (fun p =>
      (p.1, p.2.receive_signal (propagationDelta f.synapses fired p.1))),
    synapses := f.synapses.map (fun s =>
      if decide (s.source_uid ∈ fired) && decide (s.target_uid ∈ fired) then
        s.update_weight_hebbian (1 / 100)
      else s) }

/-- `NeuralFabric.update_power_estimate`: no-op when called less than 0.1 s
after the previous update; otherwise folds the idle wattage plus the interval's
synapse joules (which are then reset) into the rolling average.  The legacy
variant's random neuron sample cancels out of its own formula
(`(len(sampled)·W / len(sampled)) · len(neurons) = W · len(neurons)`, and 0 when
there are no neurons), so both source variants compute exactly this function. -/
def NeuralFabric.update_power_estimate (f : NeuralFabric) (now : ℚ) :
    NeuralFabric :=
  if now - f.last_power_check_time < 1 / 10 then f
  else
    { f with
      synapses := f.synapses.map (fun s => { s with last_update_joules := 0 }),
      rolling_avg_power :=
        (95 / 100) * f.rolling_avg_power + (5 / 100) *
          ((f.neurons.length : ℚ) * WATTS_IDLE_PER_NEURON +
            (f.synapses.map Synapse.last_update_joules).sum /
              (now - f.last_power_check_time)),
      last_power_check_time := now }

/-- The state mutation of one full tick (phases 1–3 of `step_simulation`,
which are common to both source variants): integrate/fire, propagate + learn,
then update the power estimate. -/
def NeuralFabric.stepCore (f : NeuralFabric) (now : ℚ) : NeuralFabric :=
  ((f.integratePass).propagatePass f.firedSet).update_power_estimate now

/-- `NeuralFabric.step_simulation` (AI_Infant variant): integrate/fire,
propagate + learn, update the power estimate, then check the budget inside a
`try/except` that catches `PowerBudgetExceededError` and prints a warning.
The returned `Bool` records whether that exception was raised (and caught);
the fired set is returned in every case. -/
def NeuralFabric.step_simulation (f : NeuralFabric) (now : ℚ) :
    NeuralFabric × Finset ℕ × Bool :=
  match (f.stepCore now).check_power_budget with
  | .error _ => (f.stepCore now, f.firedSet, true)
  | .ok _ => (f.stepCore now, f.firedSet, false)

/-- `NeuralFabric.step_simulation` (legacy variant, `src/neural_fabric.py`):
returns `None` (not the empty set) when no unit fired, skipping the power
update, and lets `PowerBudgetExceededError` propagate to the caller, in which
case no fired set is returned.  The first component is the state after the
call (mutations made before the raise are retained). -/
def NeuralFabric.step_simulation_v0 (f : NeuralFabric) (now : ℚ) :
    NeuralFabric × Except PowerBudgetExceededError (Option (Finset ℕ)) :=
  if f.firedSet = ∅ then (f.integratePass, .ok none)
  else
    match (f.stepCore now).check_power_budget with
    | .error e => (f.stepCore now, .error e)
    | .ok _ => (f.stepCore now, .ok (some f.firedSet))

/-- `NeuralFabric.bind(symbol, ids)`: raises `ValueError` (modelled as
`Except.error ()`; the message interpolates a missing uid whose choice depends
on the unspecified Python set iteration order) when any id does not exist, in
which case nothing is stored; otherwise upserts the symbol-table entry. -/
def NeuralFabric.bind (f : NeuralFabric) (symbol : String) (neuron_ids : Finset ℕ) :
    NeuralFabric × Except Unit Unit :=
  if ∀ uid ∈ neuron_ids, f.hasNeuron uid = true then
    ({ f with symbol_table := dictInsert f.symbol_table symbol neuron_ids }, .ok ())
  else
    (f, .error ())

/-- `NeuralFabric.recall(symbol)`: `symbol_table.get(symbol, set())`. -/
def NeuralFabric.recallSym (f : NeuralFabric) (symbol : String) : Finset ℕ :=
  ((f.symbol_table.find? (fun p => decide (p.1 = symbol))).map Prod.snd).getD ∅

/-- `class MemoryCore` (`memory_core.py`).  The Python object holds a reference
to the shared fabric; here every operation that touches both is a function on
the pair, keeping the fabric an explicit argument. -/
structure MemoryCore where
  short_term_memory : List (Finset ℕ)
  consolidated_patterns : List (Finset ℕ)
  consolidation_threshold : ℕ
deriving DecidableEq

/-- `MemoryCore.__init__(fabric, consolidation_threshold=3)`. -/
def MemoryCore.init (consolidation_threshold : ℕ) : MemoryCore :=
  { short_term_memory := [], consolidated_patterns := [],
    consolidation_threshold := consolidation_threshold }

/-- `MemoryCore.observe(fired_uids)`: appends the frozen pattern when it has
more than one element; the `deque(maxlen=100)` evicts from the front once the
capacity is reached. -/
def MemoryCore.observe (m : MemoryCore) (fired_uids : Finset ℕ) : MemoryCore :=
  if 1 < fired_uids.card then
    { m with short_term_memory :=
        (if 100 < (m.short_term_memory ++ [fired_uids]).length then
          (m.short_term_memory ++ [fired_uids]).drop
            ((m.short_term_memory ++ [fired_uids]).length - 100)
        else m.short_term_memory ++ [fired_uids]) }
  else m

/-- The key list of `Counter(self.short_term_memory)` in iteration order
(first-occurrence order of the buffer). -/
def firstOccurrences (l : List (Finset ℕ)) : List (Finset ℕ) :=
  l.foldl (fun acc p => if p ∈ acc then acc else acc ++ [p]) []

/-- The salient patterns of `MemoryCore.consolidate`: distinct buffer entries
whose multiplicity in the buffer is at least the consolidation threshold. -/
def MemoryCore.salient_patterns (m : MemoryCore) : List (Finset ℕ) :=
  (firstOccurrences m.short_term_memory).filter (fun p =>
    decide (m.consolidation_threshold ≤ m.short_term_memory.count p))

/-- The double loop of `MemoryCore._strengthen_pattern` over an enumeration of
the pattern: for every `i < j`, connect both directions with weight 0.7. -/
def strengthenList : NeuralFabric → List ℕ → NeuralFabric
  | f, [] => f
  | f, a :: rest =>
      strengthenList
        (rest.foldl (fun g b =>
          (g.connect_neurons a b (7 / 10)).connect_neurons b a (7 / 10)) f)
        rest

/-- The elements of a pattern in increasing order (insertion sort, so that the
enumeration reduces definitionally). -/
def patList (p : Finset ℕ) : List ℕ :=
  Quot.liftOn p.val (fun l => l.insertionSort (· ≤ ·))
    (fun l₁ l₂ h => List.eq_of_perm_of_sorted
      (((l₁.perm_insertionSort _).trans h).trans (l₂.perm_insertionSort _).symm)
      (List.sorted_insertionSort _ _) (List.sorted_insertionSort _ _))

/-- `MemoryCore._strengthen_pattern(pattern_uids)`.  Python enumerates the
frozenset in an unspecified order; the result of the double loop is
order-independent (each ordered pair is connected exactly once), so the model
enumerates in increasing order. -/
def MemoryCore.strengthen_pattern (f : NeuralFabric) (pattern_uids : Finset ℕ) :
    NeuralFabric :=
  strengthenList f (patList pattern_uids)

/-- One iteration of the loop of `MemoryCore.consolidate` over the salient
patterns: strengthen the pattern and append it to the consolidated list when
not already present. -/
def consolidateStep (acc : NeuralFabric × List (Finset ℕ)) (p : Finset ℕ) :
    NeuralFabric × List (Finset ℕ) :=
  (MemoryCore.strengthen_pattern acc.1 p,
   if p ∈ acc.2 then acc.2 else acc.2 ++ [p])

/-- The loop of `MemoryCore.consolidate` over the salient patterns. -/
def consolidateFold (f : NeuralFabric) (cons salient : List (Finset ℕ)) :
    NeuralFabric × List (Finset ℕ) :=
  salient.foldl consolidateStep (f, cons)

/-- `MemoryCore.consolidate()`: no-op on an empty buffer; otherwise computes
the salient patterns and, when there are none, returns with the buffer
retained; when there are some, strengthens each, appends the new ones to the
consolidated list, and clears the buffer. -/
def MemoryCore.consolidate (f : NeuralFabric) (m : MemoryCore) :
    NeuralFabric × MemoryCore :=
  if m.short_term_memory = [] then (f, m)
  else if m.salient_patterns = [] then (f, m)
  else
    ((consolidateFold f m.consolidated_patterns m.salient_patterns).1,
     { m with
       consolidated_patterns :=
         (consolidateFold f m.consolidated_patterns m.salient_patterns).2,
       short_term_memory := [] })

/-- `MemoryCore.recall(cue_uids, activation_strength=0.6)`: every link out of a
cue unit whose weight strictly exceeds 0.5 injects the activation strength into
its target (a target reached by several such links receives the strength once
per link) and the targets are collected as the excited set.  The unchecked
Python lookup `self.fabric.neurons[target_uid]` is modelled as an update of the
existing entry; `linksClosed` shows it cannot miss on a well-formed state.
`strongLinks` is the list of links out of a cue unit whose weight strictly
exceeds 0.5. -/
def strongLinks (f : NeuralFabric) (cue_uids : Finset ℕ) : List Synapse :=
  f.synapses.filter (fun s =>
    decide (s.source_uid ∈ cue_uids) && decide ((1 : ℚ) / 2 < s.weight))

def MemoryCore.recall (f : NeuralFabric) (cue_uids : Finset ℕ)
    (activation_strength : ℚ) : NeuralFabric × Finset ℕ :=
  if cue_uids = ∅ then (f, ∅)
  else
    ({ f with neurons := f.neurons.map (fun p =>
        (p.1, p.2.receive_signal (activation_strength *
          (((strongLinks f cue_uids).filter
            (fun s => decide (s.target_uid = p.1))).length : ℚ)))) },
     ((strongLinks f cue_uids).map Synapse.target_uid).toFinset)

/-- `MemoryCore.dream()`: no-op when nothing is consolidated; otherwise
re-activates one consolidated pattern at strength 1.1.  `random.choice` is
modelled by an explicit index argument, reduced modulo the list length. -/
def MemoryCore.dream (f : NeuralFabric) (m : MemoryCore) (choice : ℕ) :
    NeuralFabric :=
  if m.consolidated_patterns = [] then f
  else f.activate_pattern
    (m.consolidated_patterns.getD (choice % m.consolidated_patterns.length) ∅)
    (11 / 10)

/-- `MemoryCore.prune_synapses(prune_threshold=0.05, prune_factor=0.99)`:
multiply every weight by the factor, then delete the links whose decayed
weight fell strictly below the threshold. -/
def MemoryCore.prune_synapses (f : NeuralFabric) (prune_threshold prune_factor : ℚ) :
    NeuralFabric :=
  { f with synapses := (List.filter (fun s => decide (prune_threshold ≤ s.weight))
      (f.synapses.map (fun s => { s with weight := s.weight * prune_factor }))) }

/-- One public operation of the core, as listed in the interface section of the
specification.  `dream`'s random choice is an explicit index. -/
inductive Op where
  | grow (n : ℕ) (zone : String)
  | connect (a b : ℕ) (w : ℚ)
  | activate (ids : Finset ℕ) (s : ℚ)
  | bindSym (sym : String) (ids : Finset ℕ)
  | stepSim (now : ℚ)
  | observe (p : Finset ℕ)
  | consolidate
  | dream (choice : ℕ)
  | recallCue (cue : Finset ℕ) (s : ℚ)
  | prune (th d : ℚ)

/-- The state transition of one operation on the shared fabric/controller pair
(the value an operation returns to its caller is dropped here). -/
def applyOp : NeuralFabric × MemoryCore → Op → NeuralFabric × MemoryCore
  | (f, m), .grow n z => (f.add_neurons n z, m)
  | (f, m), .connect a b w => (f.connect_neurons a b w, m)
  | (f, m), .activate ids s => (f.activate_pattern ids s, m)
  | (f, m), .bindSym sym ids => ((f.bind sym ids).1, m)
  | (f, m), .stepSim now => ((f.step_simulation now).1, m)
  | (f, m), .observe p => (f, m.observe p)
  | (f, m), .consolidate => MemoryCore.consolidate f m
  | (f, m), .dream c => (MemoryCore.dream f m c, m)
  | (f, m), .recallCue cue s => ((MemoryCore.recall f cue s).1, m)
  | (f, m), .prune th d => (MemoryCore.prune_synapses f th d, m)

/-- Referential integrity of the link table: both endpoints of every stored
link are existing unit ids. -/
def linksClosed (f : NeuralFabric) : Prop :=
  ∀ s ∈ f.synapses, f.hasNeuron s.source_uid = true ∧ f.hasNeuron s.target_uid = true

/-- The weight-bound invariant: every stored link weight lies in [0, 1]. -/
def weightsInRange (f : NeuralFabric) : Prop :=
  ∀ s ∈ f.synapses, 0 ≤ s.weight ∧ s.weight ≤ 1

/-- Key uniqueness of the link table: no two stored links share the ordered
(source, target) pair.  This holds by construction in the Python nested dict;
here it is an explicit hypothesis where a proof needs it. -/
def synKeysNodup (f : NeuralFabric) : Prop :=
  (f.synapses.map (fun s => (s.source_uid, s.target_uid))).Nodup

/-- The weights an operation itself injects stay in [0, 1]: the weight argument
of `connect` and the decay factor of `prune` (the defaults 0.1 and 0.99 of the
source satisfy this). -/
def Op.weightOK : Op → Prop
  | .connect _ _ w => 0 ≤ w ∧ w ≤ 1
  | .prune _ d => 0 ≤ d ∧ d ≤ 1
  | _ => True

/-- `k` successive `observe` calls with the same fired pattern. -/
def observeTimes (m : MemoryCore) (p : Finset ℕ) : ℕ → MemoryCore
  | 0 => m
  | k + 1 => (observeTimes m p k).observe p

/-! ### Concrete states used by the closed witness and counterexample
theorems below. -/

/-- Equality on `Except` values is decidable (used to evaluate the legacy
variant's result on concrete inputs). -/
instance {e a : Type} [DecidableEq e] [DecidableEq a] : DecidableEq (Except e a) :=
  fun x y =>
  match x, y with
  | .error u, .error v =>
      if h : u = v then isTrue (congrArg Except.error h)
      else isFalse (fun hc => h (by injection hc))
  | .error _, .ok _ => isFalse (fun hc => by injection hc)
  | .ok _, .error _ => isFalse (fun hc => by injection hc)
  | .ok u, .ok v =>
      if h : u = v then isTrue (congrArg Except.ok h)
      else isFalse (fun hc => h (by injection hc))

/-- A three-unit fabric: units 0 and 1 are at or above threshold, unit 2 is
silent; links 0→1 (weight 1/2) and 0→2 (weight 1/5). -/
def fabW : NeuralFabric :=
  { max_neurons := 10, power_budget_watts := 20,
    neurons := [(0, ⟨0, "z", 1, 1⟩), (1, ⟨1, "z", 11 / 10, 1⟩), (2, ⟨2, "z", 0, 1⟩)],
    synapses := [⟨0, 1, 1 / 2, 0⟩, ⟨0, 2, 1 / 5, 0⟩],
    zones := [("z", {0, 1, 2})], symbol_table := [],
    last_power_check_time := 0, rolling_avg_power := 0 }

/-- A one-unit fabric whose unit fires and whose rolling power average (100 W)
already exceeds its budget (20 W). -/
def fabHot : NeuralFabric :=
  { max_neurons := 10, power_budget_watts := 20,
    neurons := [(0, ⟨0, "z", 11 / 10, 1⟩)],
    synapses := [],
    zones := [("z", {0})], symbol_table := [],
    last_power_check_time := 0, rolling_avg_power := 100 }

/-- A one-unit fabric in which nothing fires. -/
def fabIdle : NeuralFabric :=
  { max_neurons := 10, power_budget_watts := 20,
    neurons := [(0, ⟨0, "z", 0, 1⟩)],
    synapses := [],
    zones := [("z", {0})], symbol_table := [],
    last_power_check_time := 0, rolling_avg_power := 0 }

/-- A two-unit fabric with no links (fresh consolidation target). -/
def fabF : NeuralFabric :=
  { max_neurons := 10, power_budget_watts := 20,
    neurons := [(0, ⟨0, "z", 0, 1⟩), (1, ⟨1, "z", 0, 1⟩)],
    synapses := [],
    zones := [("z", {0, 1})], symbol_table := [],
    last_power_check_time := 0, rolling_avg_power := 0 }

end Jarvis


namespace Jarvis

/-! ### Lookup lemmas -/

theorem synKey_iff {a b : ℕ} {s : Synapse} :
    synKey a b s = true ↔ s.source_uid = a ∧ s.target_uid = b := by
  simp [synKey]

/-- A rewrite of the link table that fixes every key commutes with lookup. -/
theorem find?_synKey_map (l : List Synapse) (g : Synapse → Synapse)
    (hg : ∀ s, (g s).source_uid = s.source_uid ∧ (g s).target_uid = s.target_uid)
    (a b : ℕ) :
    (l.map g).find? (synKey a b) = Option.map g (l.find? (synKey a b)) := by
  rw [List.find?_map]
  have : synKey a b ∘ g = synKey a b := by
    funext s
    simp [Function.comp, synKey, (hg s).1, (hg s).2]
  rw [this]

/-- A rewrite of a keyed table that fixes every key commutes with the key
membership test. -/
theorem any_key_map {α β : Type} [DecidableEq α] (l : List (α × β))
    (g : α × β → α × β) (hg : ∀ p, (g p).1 = p.1) (u : α) :
    (l.map g).any (fun p => decide (p.1 = u)) = l.any (fun p => decide (p.1 = u)) := by
  rw [List.any_map]
  have : ((fun p : α × β => decide (p.1 = u)) ∘ g) =
      fun p : α × β => decide (p.1 = u) := by
    funext p
    simp [Function.comp, hg p]
  rw [this]

/-- A rewrite of a keyed table that fixes every key commutes with lookup. -/
theorem find?_key_map {α β : Type} [DecidableEq α] (l : List (α × β))
    (g : α × β → α × β) (hg : ∀ p, (g p).1 = p.1) (u : α) :
    (l.map g).find? (fun p => decide (p.1 = u)) =
      Option.map g (l.find? (fun p => decide (p.1 = u))) := by
  rw [List.find?_map]
  have : ((fun p : α × β => decide (p.1 = u)) ∘ g) =
      fun p : α × β => decide (p.1 = u) := by
    funext p
    simp [Function.comp, hg p]
  rw [this]

theorem found_key_eq {α β : Type} [DecidableEq α] {l : List (α × β)} {u : α}
    {e : α × β} (h : l.find? (fun p => decide (p.1 = u)) = some e) : e.1 = u := by
  simpa using List.find?_some h

/-! ### `connect_neurons` -/

theorem connect_neurons_neurons (f : NeuralFabric) (a b : ℕ) (w : ℚ) :
    (f.connect_neurons a b w).neurons = f.neurons := by
  unfold NeuralFabric.connect_neurons
  split
  · split <;> rfl
  · rfl

theorem connect_neurons_hasNeuron (f : NeuralFabric) (a b : ℕ) (w : ℚ) (u : ℕ) :
    (f.connect_neurons a b w).hasNeuron u = f.hasNeuron u := by
  unfold NeuralFabric.hasNeuron
  rw [connect_neurons_neurons]

theorem connect_neurons_of_missing (f : NeuralFabric) (a b : ℕ) (w : ℚ)
    (h : ¬(f.hasNeuron a = true ∧ f.hasNeuron b = true)) :
    f.connect_neurons a b w = f := by
  unfold NeuralFabric.connect_neurons
  have hc : ¬((f.hasNeuron a && f.hasNeuron b) = true) := by
    rw [Bool.and_eq_true]
    exact h
  rw [if_neg hc]

theorem connect_neurons_of_some (f : NeuralFabric) (a b : ℕ) (w : ℚ) (s : Synapse)
    (h : f.syn? a b = some s) : f.connect_neurons a b w = f := by
  unfold NeuralFabric.connect_neurons
  split
  · rw [if_neg]
    simp [h]
  · rfl

theorem connect_syn?_self (f : NeuralFabric) (a b : ℕ) (w : ℚ)
    (ha : f.hasNeuron a = true) (hb : f.hasNeuron b = true)
    (hn : f.syn? a b = none) :
    (f.connect_neurons a b w).syn? a b = some ⟨a, b, w, 0⟩ := by
  unfold NeuralFabric.connect_neurons
  rw [if_pos (by rw [ha, hb]; rfl), if_pos (by rw [hn]; rfl)]
  show (f.synapses ++ [Synapse.mk a b w 0]).find? (synKey a b) =
    some (Synapse.mk a b w 0)
  rw [List.find?_append]
  have hn' : f.synapses.find? (synKey a b) = none := hn
  rw [hn']
  rw [Option.none_or]
  exact List.find?_cons_of_pos _ (synKey_iff.mpr ⟨rfl, rfl⟩)

theorem connect_syn?_other (f : NeuralFabric) (a b x y : ℕ) (w : ℚ)
    (h : ¬(x = a ∧ y = b)) :
    (f.connect_neurons a b w).syn? x y = f.syn? x y := by
  unfold NeuralFabric.connect_neurons
  split
  · split
    · show (f.synapses ++ [Synapse.mk a b w 0]).find? (synKey x y) =
        f.synapses.find? (synKey x y)
      rw [List.find?_append]
      have hkey : ¬(synKey x y (Synapse.mk a b w 0) = true) := by
        intro hk
        rcases synKey_iff.mp hk with ⟨h1, h2⟩
        exact h ⟨h1.symm, h2.symm⟩
      rw [List.find?_cons_of_neg _ hkey]
      show (f.synapses.find? (synKey x y)).or (List.find? (synKey x y) []) = _
      cases f.synapses.find? (synKey x y) <;> rfl
    · rfl
  · rfl

theorem connect_syn?_mono (f : NeuralFabric) (a b x y : ℕ) (w : ℚ) (s : Synapse)
    (h : f.syn? x y = some s) :
    (f.connect_neurons a b w).syn? x y = some s := by
  by_cases hxy : x = a ∧ y = b
  · rcases hxy with ⟨rfl, rfl⟩
    rw [connect_neurons_of_some f x y w s h]
    exact h
  · rw [connect_syn?_other f a b x y w hxy]
    exact h

theorem connect_synapses_mem (f : NeuralFabric) (a b : ℕ) (w : ℚ) (s' : Synapse)
    (h : s' ∈ (f.connect_neurons a b w).synapses) :
    s' ∈ f.synapses ∨
      (s' = ⟨a, b, w, 0⟩ ∧ f.hasNeuron a = true ∧ f.hasNeuron b = true) := by
  revert h
  unfold NeuralFabric.connect_neurons
  split
  · split
    · intro h
      rcases List.mem_append.mp h with h1 | h1
      · exact Or.inl h1
      · rename_i hcond _
        rw [Bool.and_eq_true] at hcond
        rcases hcond with ⟨ha, hb⟩
        exact Or.inr ⟨List.mem_singleton.mp h1, ha, hb⟩
    · exact Or.inl
  · exact Or.inl

/-! ### `activate_pattern` -/

theorem activate_pattern_synapses (f : NeuralFabric) (ids : Finset ℕ) (s : ℚ) :
    (f.activate_pattern ids s).synapses = f.synapses := rfl

theorem activate_pattern_hasNeuron (f : NeuralFabric) (ids : Finset ℕ) (s : ℚ) (u : ℕ) :
    (f.activate_pattern ids s).hasNeuron u = f.hasNeuron u := by
  unfold NeuralFabric.activate_pattern NeuralFabric.hasNeuron
  exact any_key_map _ _ (fun p => by split <;> rfl) u

theorem activate_pattern_neuron?_of_not_mem (f : NeuralFabric) (ids : Finset ℕ)
    (s : ℚ) (u : ℕ) (h : u ∉ ids) :
    (f.activate_pattern ids s).neuron? u = f.neuron? u := by
  unfold NeuralFabric.activate_pattern NeuralFabric.neuron?
  rw [find?_key_map _ _ (fun p => by split <;> rfl) u]
  cases hf : f.neurons.find? (fun p => decide (p.1 = u)) with
  | none => rfl
  | some e =>
      have he : e.1 = u := found_key_eq hf
      have : (if e.1 ∈ ids then (e.1, e.2.receive_signal s) else e) = e := by
        rw [if_neg]
        rw [he]
        exact h
      simp [this]

/-! ### `update_power_estimate` -/

theorem update_power_estimate_neurons (f : NeuralFabric) (t : ℚ) :
    (f.update_power_estimate t).neurons = f.neurons := by
  unfold NeuralFabric.update_power_estimate
  split <;> rfl

theorem update_power_estimate_hasNeuron (f : NeuralFabric) (t : ℚ) (u : ℕ) :
    (f.update_power_estimate t).hasNeuron u = f.hasNeuron u := by
  unfold NeuralFabric.hasNeuron
  rw [update_power_estimate_neurons]

theorem update_power_estimate_weight? (f : NeuralFabric) (t : ℚ) (a b : ℕ) :
    (f.update_power_estimate t).weight? a b = f.weight? a b := by
  unfold NeuralFabric.update_power_estimate NeuralFabric.weight? NeuralFabric.syn?
  split
  · rfl
  · show ((f.synapses.map fun s => { s with last_update_joules := 0 }).find?
        (synKey a b)).map Synapse.weight = _
    rw [find?_synKey_map f.synapses (fun s => { s with last_update_joules := 0 })
      (fun s => ⟨rfl, rfl⟩) a b]
    cases f.synapses.find? (synKey a b) <;> rfl

theorem update_power_estimate_synapses_mem (f : NeuralFabric) (t : ℚ) (s' : Synapse)
    (h : s' ∈ (f.update_power_estimate t).synapses) :
    ∃ s ∈ f.synapses, s'.source_uid = s.source_uid ∧ s'.target_uid = s.target_uid ∧
      s'.weight = s.weight := by
  revert h
  unfold NeuralFabric.update_power_estimate
  split
  · intro h
    exact ⟨s', h, rfl, rfl, rfl⟩
  · intro h
    rcases List.mem_map.mp h with ⟨s, hs, rfl⟩
    exact ⟨s, hs, rfl, rfl, rfl⟩

end Jarvis

namespace Jarvis

/-! ### `integratePass`, `propagatePass`, `firedSet` -/

theorem integratePass_synapses (f : NeuralFabric) :
    (f.integratePass).synapses = f.synapses := rfl

theorem integratePass_hasNeuron (f : NeuralFabric) (u : ℕ) :
    (f.integratePass).hasNeuron u = f.hasNeuron u := by
  unfold NeuralFabric.integratePass NeuralFabric.hasNeuron
  exact any_key_map f.neurons (fun p => (p.1, (p.2.stepFire).2)) (fun p => rfl) u

theorem propagatePass_hasNeuron (f : NeuralFabric) (fired : Finset ℕ) (u : ℕ) :
    (f.propagatePass fired).hasNeuron u = f.hasNeuron u := by
  unfold NeuralFabric.propagatePass NeuralFabric.hasNeuron
  exact any_key_map f.neurons
    (fun p => (p.1, p.2.receive_signal (propagationDelta f.synapses fired p.1)))
    (fun p => rfl) u

theorem propagatePass_syn? (f : NeuralFabric) (fired : Finset ℕ) (a b : ℕ) :
    (f.propagatePass fired).syn? a b =
      Option.map (fun s =>
        if decide (s.source_uid ∈ fired) && decide (s.target_uid ∈ fired) then
          s.update_weight_hebbian (1 / 100)
        else s) (f.syn? a b) := by
  unfold NeuralFabric.propagatePass NeuralFabric.syn?
  exact find?_synKey_map _ _ (fun s => by split <;> exact ⟨rfl, rfl⟩) a b

theorem propagatePass_synapses_mem (f : NeuralFabric) (fired : Finset ℕ)
    (s' : Synapse) (h : s' ∈ (f.propagatePass fired).synapses) :
    ∃ s ∈ f.synapses, s'.source_uid = s.source_uid ∧ s'.target_uid = s.target_uid ∧
      (s'.weight = s.weight ∨ s'.weight = min 1 (s.weight + 1 / 100)) := by
  rcases List.mem_map.mp h with ⟨s, hs, rfl⟩
  refine ⟨s, hs, ?_⟩
  dsimp only
  split
  · exact ⟨rfl, rfl, Or.inr rfl⟩
  · exact ⟨rfl, rfl, Or.inl rfl⟩

theorem stepFire_fst_iff (n : Neuron) :
    (n.stepFire).1 = true ↔ n.threshold ≤ n.activation_potential := by
  unfold Neuron.stepFire
  split <;> rename_i h <;> simp [h]

theorem mem_firedSet (f : NeuralFabric) (u : ℕ) :
    u ∈ f.firedSet ↔
      ∃ nr : Neuron, (u, nr) ∈ f.neurons ∧ nr.threshold ≤ nr.activation_potential := by
  unfold NeuralFabric.firedSet
  rw [List.mem_toFinset]
  constructor
  · intro h
    rcases List.mem_map.mp h with ⟨p, hp, rfl⟩
    rcases List.mem_filter.mp hp with ⟨hmem, hcond⟩
    exact ⟨p.2, by simpa using hmem, (stepFire_fst_iff p.2).mp hcond⟩
  · rintro ⟨nr, hmem, hth⟩
    exact List.mem_map.mpr ⟨(u, nr),
      List.mem_filter.mpr ⟨hmem, (stepFire_fst_iff nr).mpr hth⟩, rfl⟩

/-! ### `step_simulation` decompositions -/

theorem stepCore_hasNeuron (f : NeuralFabric) (t : ℚ) (u : ℕ) :
    (f.stepCore t).hasNeuron u = f.hasNeuron u := by
  unfold NeuralFabric.stepCore
  rw [update_power_estimate_hasNeuron, propagatePass_hasNeuron, integratePass_hasNeuron]

theorem stepCore_weight? (f : NeuralFabric) (t : ℚ) (a b : ℕ) :
    (f.stepCore t).weight? a b =
      Option.map (fun s =>
        if decide (s.source_uid ∈ f.firedSet) && decide (s.target_uid ∈ f.firedSet) then
          min 1 (s.weight + 1 / 100)
        else s.weight) (f.syn? a b) := by
  unfold NeuralFabric.stepCore
  rw [update_power_estimate_weight?]
  show ((f.integratePass.propagatePass f.firedSet).syn? a b).map Synapse.weight = _
  rw [propagatePass_syn?]
  have hsyn : (f.integratePass).syn? a b = f.syn? a b := rfl
  rw [hsyn, Option.map_map]
  have hfun : (Synapse.weight ∘ fun s =>
      if decide (s.source_uid ∈ f.firedSet) && decide (s.target_uid ∈ f.firedSet) then
        s.update_weight_hebbian (1 / 100)
      else s) = fun s : Synapse =>
      if decide (s.source_uid ∈ f.firedSet) && decide (s.target_uid ∈ f.firedSet) then
        min 1 (s.weight + 1 / 100)
      else s.weight := by
    funext s
    dsimp [Function.comp]
    split <;> rfl
  rw [hfun]

theorem step_simulation_eq (f : NeuralFabric) (t : ℚ) :
    f.step_simulation t =
      (f.stepCore t, f.firedSet,
        decide ((f.stepCore t).power_budget_watts < (f.stepCore t).rolling_avg_power)) := by
  unfold NeuralFabric.step_simulation NeuralFabric.check_power_budget
  by_cases h : (f.stepCore t).power_budget_watts < (f.stepCore t).rolling_avg_power
  · rw [if_pos h]
    simp [h]
  · rw [if_neg h]
    simp [h]

theorem step_simulation_v0_none (f : NeuralFabric) (t : ℚ) (h : f.firedSet = ∅) :
    f.step_simulation_v0 t = (f.integratePass, .ok none) := by
  unfold NeuralFabric.step_simulation_v0
  rw [if_pos h]

theorem step_simulation_v0_error (f : NeuralFabric) (t : ℚ) (h : f.firedSet ≠ ∅)
    (hb : (f.stepCore t).power_budget_watts < (f.stepCore t).rolling_avg_power) :
    f.step_simulation_v0 t = (f.stepCore t,
      .error ⟨(f.stepCore t).rolling_avg_power, (f.stepCore t).power_budget_watts⟩) := by
  unfold NeuralFabric.step_simulation_v0 NeuralFabric.check_power_budget
  rw [if_neg h, if_pos hb]

/-! ### `dictInsert`, `bind`, `recallSym` -/

theorem dictInsert_find?_self {α β : Type} [DecidableEq α] (l : List (α × β))
    (k : α) (v : β) :
    (dictInsert l k v).find? (fun p => decide (p.1 = k)) = some (k, v) := by
  unfold dictInsert
  split
  · rename_i hany
    rw [find?_key_map l (fun p => if p.1 = k then (k, v) else p)
      (fun p => by by_cases hp : p.1 = k <;> simp [hp]) k]
    rcases List.any_eq_true.mp hany with ⟨e, he, hek⟩
    have hsome : (l.find? (fun p => decide (p.1 = k))).isSome := by
      rw [List.find?_isSome]
      exact ⟨e, he, hek⟩
    rcases Option.isSome_iff_exists.mp hsome with ⟨e', he'⟩
    rw [he']
    have : e'.1 = k := found_key_eq he'
    simp [this]
  · rename_i hany
    have hnone : l.find? (fun p => decide (p.1 = k)) = none := by
      rw [List.find?_eq_none]
      intro x hx hpx
      exact (List.any_eq_true.not.mp hany) ⟨x, hx, hpx⟩
    rw [List.find?_append, hnone, Option.none_or]
    exact List.find?_cons_of_pos _ (by simp)

theorem bind_of_all_present (f : NeuralFabric) (sym : String) (ids : Finset ℕ)
    (h : ∀ u ∈ ids, f.hasNeuron u = true) :
    f.bind sym ids =
      ({ f with symbol_table := dictInsert f.symbol_table sym ids }, .ok ()) := by
  unfold NeuralFabric.bind
  rw [if_pos h]

theorem bind_of_missing (f : NeuralFabric) (sym : String) (ids : Finset ℕ)
    (h : ¬ ∀ u ∈ ids, f.hasNeuron u = true) :
    f.bind sym ids = (f, .error ()) := by
  unfold NeuralFabric.bind
  rw [if_neg h]

theorem recallSym_bind (f : NeuralFabric) (sym : String) (ids : Finset ℕ)
    (h : ∀ u ∈ ids, f.hasNeuron u = true) :
    ((f.bind sym ids).1).recallSym sym = ids := by
  rw [bind_of_all_present f sym ids h]
  unfold NeuralFabric.recallSym
  dsimp only
  rw [dictInsert_find?_self]
  rfl

end Jarvis

namespace Jarvis

theorem neuron?_eq_none_of_hasNeuron_false (f : NeuralFabric) (u : ℕ)
    (h : f.hasNeuron u = false) : f.neuron? u = none := by
  unfold NeuralFabric.neuron?
  have h' : f.neurons.any (fun p => decide (p.1 = u)) = false := h
  have hfind : f.neurons.find? (fun p => decide (p.1 = u)) = none := by
    rw [List.find?_eq_none]
    intro x hx hpx
    have hany : f.neurons.any (fun q => decide (q.1 = u)) = true :=
      List.any_eq_true.mpr ⟨x, hx, hpx⟩
    rw [h'] at hany
    exact Bool.false_ne_true hany
  rw [hfind]
  rfl

/-! ### Claim C1 -/

/-- C1 (amended): in the AI_Infant variant, `step_simulation` always returns
the fired set (also when it is empty and when the budget condition holds), its
state mutations are those of the full tick whether or not the budget condition
holds (no rollback), and the warning flag is reported exactly when the
post-step rolling average exceeds the budget; the budget exception is raised
and caught inside `step()` (surfacing as a printed warning), not propagated to
the caller. -/
theorem C1_step_returns_fired_mutations_and_flag (f : NeuralFabric) (t : ℚ) :
    (f.step_simulation t).2.1 = f.firedSet ∧
    (f.step_simulation t).1 = f.stepCore t ∧
    ((f.step_simulation t).2.2 = true ↔
      (f.step_simulation t).1.power_budget_watts <
        (f.step_simulation t).1.rolling_avg_power) := by
  rw [step_simulation_eq]
  refine ⟨rfl, rfl, ?_⟩
  simp

/-- C1 (counterexample): in the legacy variant (`src/neural_fabric.py`), the
claim as stated fails: on a fabric whose unit fires while the rolling average
(100 W) exceeds the budget (20 W), `step_simulation` raises
`PowerBudgetExceededError` to the caller and the fired set is suppressed; and
on a fabric where nothing fires, `None` is returned instead of the empty
fired set. -/
theorem C1_counterexample :
    (fabHot.step_simulation_v0 0).2 = .error ⟨100, 20⟩ ∧
    fabHot.firedSet = {0} ∧
    (fabIdle.step_simulation_v0 0).2 = .ok none ∧
    fabIdle.firedSet = ∅ := by
  refine ⟨?_, ?_, ?_, ?_⟩ <;> decide

/-! ### Claim C2 -/

/-- C2 (counterexample): a non-empty short-term buffer (the pattern {0, 1}
observed twice against a threshold of 3) is NOT cleared by `consolidate()`,
because no pattern is salient and the code returns before the clearing line. -/
theorem C2_counterexample :
    (observeTimes (MemoryCore.init 3) {0, 1} 2).short_term_memory ≠ [] ∧
    (MemoryCore.consolidate fabF
      (observeTimes (MemoryCore.init 3) {0, 1} 2)).2.short_term_memory ≠ [] := by
  constructor <;> decide

/-- C2 (amended): after `consolidate()` on a non-empty short-term buffer, the
buffer is empty exactly when some pattern reached the salience threshold;
when none did, the buffer is retained unchanged. -/
theorem C2_buffer_cleared_iff_salient (f : NeuralFabric) (m : MemoryCore)
    (hne : m.short_term_memory ≠ []) :
    (MemoryCore.consolidate f m).2.short_term_memory =
      (if m.salient_patterns = [] then m.short_term_memory else []) := by
  unfold MemoryCore.consolidate
  rw [if_neg hne]
  by_cases hs : m.salient_patterns = []
  · rw [if_pos hs, if_pos hs]
  · rw [if_neg hs, if_neg hs]

/-- C2 (witness): with threshold 2 and two observations of {0, 1}, the pattern
is salient and the buffer is indeed cleared. -/
theorem C2_witness :
    (MemoryCore.consolidate fabF
        (observeTimes (MemoryCore.init 2) {0, 1} 2)).2.short_term_memory =
      (if (observeTimes (MemoryCore.init 2) {0, 1} 2).salient_patterns = []
        then (observeTimes (MemoryCore.init 2) {0, 1} 2).short_term_memory
        else []) :=
  C2_buffer_cleared_iff_salient fabF (observeTimes (MemoryCore.init 2) {0, 1} 2)
    (by decide)

end Jarvis

namespace Jarvis

/-! ### Claim C6 -/

/-- C6 (counterexample): on a fabric that already stores a link 0→1 of weight
1/2, `connect(0, 1, 0.7)` followed by `connect(0, 1, 0.9)` leaves the
pre-existing weight 1/2, not the weight of the first call. -/
theorem C6_counterexample :
    ((fabW.connect_neurons 0 1 (7 / 10)).connect_neurons 0 1 (9 / 10)).weight? 0 1 =
      some (1 / 2) ∧ (1 : ℚ) / 2 ≠ 7 / 10 := by
  constructor <;> decide

/-- C6 (amended): the second `connect` call never changes anything; and when
no link existed for the ordered pair before the first call (and both ids
exist), the two calls leave exactly one link for the pair, with the weight of
the first call.  A pre-existing link keeps its original weight (both calls are
then no-ops). -/
theorem C6_connect_idempotent (f : NeuralFabric) (a b : ℕ) (w1 w2 : ℚ) :
    (f.connect_neurons a b w1).connect_neurons a b w2 = f.connect_neurons a b w1 ∧
    (f.hasNeuron a = true → f.hasNeuron b = true → f.syn? a b = none →
      ((f.connect_neurons a b w1).connect_neurons a b w2).weight? a b = some w1 ∧
      ((f.connect_neurons a b w1).connect_neurons a b w2).linkCount a b = 1) := by
  have hidem : (f.connect_neurons a b w1).connect_neurons a b w2 =
      f.connect_neurons a b w1 := by
    by_cases hab : f.hasNeuron a = true ∧ f.hasNeuron b = true
    · by_cases hs : f.syn? a b = none
      · exact connect_neurons_of_some _ a b w2 _
          (connect_syn?_self f a b w1 hab.1 hab.2 hs)
      · rcases Option.ne_none_iff_exists'.mp hs with ⟨s, hsome⟩
        rw [connect_neurons_of_some f a b w1 s hsome]
        rw [connect_neurons_of_some f a b w2 s hsome]
    · rw [connect_neurons_of_missing f a b w1 hab]
      rw [connect_neurons_of_missing f a b w2 hab]
  refine ⟨hidem, fun ha hb hn => ?_⟩
  have hcreated : (f.connect_neurons a b w1).synapses =
      f.synapses ++ [Synapse.mk a b w1 0] := by
    unfold NeuralFabric.connect_neurons
    rw [if_pos (by rw [ha, hb]; rfl), if_pos (by rw [hn]; rfl)]
  constructor
  · rw [hidem]
    unfold NeuralFabric.weight?
    rw [connect_syn?_self f a b w1 ha hb hn]
    rfl
  · rw [hidem]
    unfold NeuralFabric.linkCount
    rw [hcreated, List.countP_append]
    have h0 : f.synapses.countP (synKey a b) = 0 := by
      rw [List.countP_eq_zero]
      exact List.find?_eq_none.mp hn
    have h1 : List.countP (synKey a b) [Synapse.mk a b w1 0] = 1 := by
      simp [List.countP, List.countP.go, synKey]
    rw [h0, h1]

/-- C6 (witness): units 1 and 2 of the concrete fabric exist and carry no
link, so the double `connect` leaves exactly one 1→2 link of weight 3/10. -/
theorem C6_witness :
    ((fabW.connect_neurons 1 2 (3 / 10)).connect_neurons 1 2 (4 / 10)).weight? 1 2 =
      some (3 / 10) ∧
    ((fabW.connect_neurons 1 2 (3 / 10)).connect_neurons 1 2 (4 / 10)).linkCount 1 2 = 1 :=
  (C6_connect_idempotent fabW 1 2 (3 / 10) (4 / 10)).2 (by decide) (by decide) (by decide)

/-! ### Claim C7 -/

/-- C7: after `prune(threshold, decay)` (with key-unique link table): every
pre-call link whose decayed weight is at or above the threshold survives with
exactly its decayed weight; every pre-call link whose decayed weight falls
below the threshold is removed; every post-call link descends from a pre-call
link with its weight decayed (no links are created); and the unit table is
untouched. -/
theorem C7_prune_decays_and_removes (f : NeuralFabric) (th d : ℚ)
    (hnd : synKeysNodup f) :
    (∀ s ∈ f.synapses, th ≤ s.weight * d →
      ({ s with weight := s.weight * d } : Synapse) ∈
        (MemoryCore.prune_synapses f th d).synapses) ∧
    (∀ s ∈ f.synapses, s.weight * d < th →
      ∀ s' ∈ (MemoryCore.prune_synapses f th d).synapses,
        ¬(s'.source_uid = s.source_uid ∧ s'.target_uid = s.target_uid)) ∧
    (∀ s' ∈ (MemoryCore.prune_synapses f th d).synapses,
      ∃ s ∈ f.synapses, s'.source_uid = s.source_uid ∧
        s'.target_uid = s.target_uid ∧ s'.weight = s.weight * d ∧ th ≤ s'.weight) ∧
    (MemoryCore.prune_synapses f th d).neurons = f.neurons := by
  unfold MemoryCore.prune_synapses
  refine ⟨?_, ?_, ?_, rfl⟩
  · intro s hs hth
    exact List.mem_filter.mpr
      ⟨List.mem_map.mpr ⟨s, hs, rfl⟩, by simpa using hth⟩
  · intro s hs hlt s' hs' hkeys
    rcases List.mem_filter.mp hs' with ⟨hmap, hge⟩
    rcases List.mem_map.mp hmap with ⟨s2, hs2, rfl⟩
    have hkey : (s2.source_uid, s2.target_uid) = (s.source_uid, s.target_uid) := by
      rw [Prod.mk.injEq]
      exact ⟨hkeys.1, hkeys.2⟩
    have hs2s : s2 = s := List.inj_on_of_nodup_map hnd hs2 hs hkey
    subst hs2s
    have : th ≤ s2.weight * d := by simpa using hge
    exact absurd this (not_le.mpr hlt)
  · intro s' hs'
    rcases List.mem_filter.mp hs' with ⟨hmap, hge⟩
    rcases List.mem_map.mp hmap with ⟨s, hsmem, rfl⟩
    exact ⟨s, hsmem, rfl, rfl, rfl, by simpa using hge⟩

/-- C7 (witness): pruning the concrete fabric at threshold 1/4 with decay
99/100 keeps the 0→1 link at its decayed weight 1/2·(99/100). -/
theorem C7_witness :
    (Synapse.mk 0 1 (1 / 2 * (99 / 100)) 0) ∈
      (MemoryCore.prune_synapses fabW (1 / 4) (99 / 100)).synapses :=
  (C7_prune_decays_and_removes fabW (1 / 4) (99 / 100)
      (by unfold synKeysNodup; decide)).1
    ⟨0, 1, 1 / 2, 0⟩ (by decide) (by decide)

end Jarvis

namespace Jarvis

/-! ### Claim C8 -/

/-- C8: referencing missing unit ids is a silent no-op.  `connect` through a
pair of which at least one id is missing leaves the fabric unchanged entirely
(in particular every existing link); `activate` never touches the link table,
leaves the potential of every unit outside the activated set unchanged, and a
missing id in the set stays absent (nothing is created for it).  Both are
total functions of the model: no exception is possible. -/
theorem C8_missing_ids_are_noops (f : NeuralFabric) (a b : ℕ) (w : ℚ)
    (ids : Finset ℕ) (s : ℚ)
    (h : ¬(f.hasNeuron a = true ∧ f.hasNeuron b = true)) :
    f.connect_neurons a b w = f ∧
    (f.activate_pattern ids s).synapses = f.synapses ∧
    (∀ u, u ∉ ids → (f.activate_pattern ids s).neuron? u = f.neuron? u) ∧
    (∀ u, f.hasNeuron u = false → (f.activate_pattern ids s).neuron? u = none) := by
  refine ⟨connect_neurons_of_missing f a b w h, rfl,
    fun u hu => activate_pattern_neuron?_of_not_mem f ids s u hu,
    fun u hu => ?_⟩
  apply neuron?_eq_none_of_hasNeuron_false
  rw [activate_pattern_hasNeuron]
  exact hu

/-- C8 (witness): connecting through the missing id 99 leaves the concrete
fabric unchanged, and activating `{2, 99}` leaves unit 0's entry unchanged. -/
theorem C8_witness :
    fabW.connect_neurons 99 0 (1 / 2) = fabW ∧
    (fabW.activate_pattern {2, 99} 1).neuron? 0 = fabW.neuron? 0 := by
  have h := C8_missing_ids_are_noops fabW 99 0 (1 / 2) {2, 99} 1 (by decide)
  exact ⟨h.1, h.2.2.1 0 (by decide)⟩

/-! ### Claim C9 -/

/-- C9 (counterexample): `bind` is NOT a silent success for arbitrary id sets:
binding a symbol to the missing id 99 raises `ValueError` and stores
nothing. -/
theorem C9_counterexample :
    (fabW.bind "x" {99}).2 = .error () ∧ (fabW.bind "x" {99}).1 = fabW := by
  constructor <;> decide

/-- C9 (amended): when every id of the set exists, `bind` succeeds, upserts
the symbol-table entry (leaving units and links untouched) and an immediately
following `recall` of the symbol returns exactly the bound set; when some id
does not exist, `bind` raises `ValueError` and changes nothing. -/
theorem C9_bind_stores_or_raises (f : NeuralFabric) (sym : String) (ids : Finset ℕ) :
    ((∀ u ∈ ids, f.hasNeuron u = true) →
      (f.bind sym ids).2 = .ok () ∧
      ((f.bind sym ids).1).recallSym sym = ids ∧
      (f.bind sym ids).1.neurons = f.neurons ∧
      (f.bind sym ids).1.synapses = f.synapses) ∧
    ((¬ ∀ u ∈ ids, f.hasNeuron u = true) → f.bind sym ids = (f, .error ())) := by
  refine ⟨fun h => ⟨?_, recallSym_bind f sym ids h, ?_, ?_⟩,
    fun h => bind_of_missing f sym ids h⟩
  · rw [bind_of_all_present f sym ids h]
  · rw [bind_of_all_present f sym ids h]
  · rw [bind_of_all_present f sym ids h]

/-- C9 (witness): binding "x" to the existing ids {0, 1} succeeds and recall
returns {0, 1}. -/
theorem C9_witness :
    (fabW.bind "x" {0, 1}).2 = .ok () ∧
    ((fabW.bind "x" {0, 1}).1).recallSym "x" = {0, 1} := by
  have h := (C9_bind_stores_or_raises fabW "x" {0, 1}).1 (by decide)
  exact ⟨h.1, h.2.1⟩

end Jarvis

namespace Jarvis

/-! ### Claim C4 -/

/-- C4: if units `a` and `b` both sit at or above threshold at the start of a
tick and a link `a → b` of weight `w` exists, then after `step()` that link's
weight is `min 1 (w + 0.01)` (a strict increase when `w < 1`); and any link
whose target does not fire in the tick keeps its weight unchanged. -/
theorem C4_cofiring_reinforces_link (f : NeuralFabric) (t : ℚ) (a b c d : ℕ)
    (na nb : Neuron) (w w' : ℚ)
    (ha : (a, na) ∈ f.neurons) (hfa : na.threshold ≤ na.activation_potential)
    (hb : (b, nb) ∈ f.neurons) (hfb : nb.threshold ≤ nb.activation_potential)
    (hw : f.weight? a b = some w)
    (hd : d ∉ f.firedSet) (hw' : f.weight? c d = some w') :
    (f.step_simulation t).1.weight? a b = some (min 1 (w + 1 / 100)) ∧
    (f.step_simulation t).1.weight? c d = some w' ∧
    (w < 1 → w < min 1 (w + 1 / 100)) := by
  refine ⟨?_, ?_, ?_⟩
  · rcases Option.map_eq_some'.mp hw with ⟨s, hsyn, hwt⟩
    have hkey := synKey_iff.mp (List.find?_some hsyn)
    have hmema : s.source_uid ∈ f.firedSet := by
      rw [hkey.1]
      exact (mem_firedSet f a).mpr ⟨na, ha, hfa⟩
    have hmemb : s.target_uid ∈ f.firedSet := by
      rw [hkey.2]
      exact (mem_firedSet f b).mpr ⟨nb, hb, hfb⟩
    rw [step_simulation_eq]
    show (f.stepCore t).weight? a b = _
    rw [stepCore_weight?]
    show Option.map _ (f.syn? a b) = _
    rw [hsyn]
    show some (if decide (s.source_uid ∈ f.firedSet) &&
        decide (s.target_uid ∈ f.firedSet) then min 1 (s.weight + 1 / 100)
      else s.weight) = _
    rw [if_pos (by rw [decide_eq_true hmema, decide_eq_true hmemb]; rfl), hwt]
  · rcases Option.map_eq_some'.mp hw' with ⟨s, hsyn, hwt⟩
    have hkey := synKey_iff.mp (List.find?_some hsyn)
    have hmemd : ¬(s.target_uid ∈ f.firedSet) := by
      rw [hkey.2]
      exact hd
    rw [step_simulation_eq]
    show (f.stepCore t).weight? c d = _
    rw [stepCore_weight?]
    show Option.map _ (f.syn? c d) = _
    rw [hsyn]
    show some (if decide (s.source_uid ∈ f.firedSet) &&
        decide (s.target_uid ∈ f.firedSet) then min 1 (s.weight + 1 / 100)
      else s.weight) = _
    rw [if_neg (by rw [decide_eq_false hmemd, Bool.and_false]; exact Bool.false_ne_true),
      hwt]
  · intro hlt
    rcases le_or_lt (w + 1 / 100) 1 with hle | hgt
    · rw [min_eq_right hle]
      linarith
    · rw [min_eq_left (le_of_lt hgt)]
      exact hlt

/-- C4 (witness): in the concrete fabric, units 0 and 1 co-fire, so the 0→1
link rises from 1/2 to min 1 (1/2 + 1/100), while the 0→2 link (unit 2 silent)
stays at 1/5. -/
theorem C4_witness :
    (fabW.step_simulation 0).1.weight? 0 1 = some (min 1 (1 / 2 + 1 / 100)) ∧
    (fabW.step_simulation 0).1.weight? 0 2 = some (1 / 5) := by
  have h := C4_cofiring_reinforces_link fabW 0 0 1 0 2 ⟨0, "z", 1, 1⟩
    ⟨1, "z", 11 / 10, 1⟩ (1 / 2) (1 / 5) (by decide) (by decide) (by decide)
    (by decide) (by decide) (by decide) (by decide)
  exact ⟨h.1, h.2.1⟩

end Jarvis

namespace Jarvis

/-! ### Preservation lemmas for the remaining operations -/

theorem dictInsert_any_mono {α β : Type} [DecidableEq α] (l : List (α × β))
    (k : α) (v : β) (u : α) (h : l.any (fun p => decide (p.1 = u)) = true) :
    (dictInsert l k v).any (fun p => decide (p.1 = u)) = true := by
  unfold dictInsert
  split
  · rw [any_key_map l (fun p => if p.1 = k then (k, v) else p)
      (fun p => by by_cases hp : p.1 = k <;> simp [hp]) u]
    exact h
  · rw [List.any_append, h]
    rfl

theorem growFold_hasNeuron_mono (zone : String) (start : ℕ) (l : List ℕ)
    (f : NeuralFabric) (u : ℕ) (h : f.hasNeuron u = true) :
    (growFold zone start f l).hasNeuron u = true := by
  induction l generalizing f with
  | nil => exact h
  | cons i rest ih =>
      exact ih _ (dictInsert_any_mono f.neurons (start + i)
        (Neuron.init (start + i) zone) u h)

theorem growFold_synapses (zone : String) (start : ℕ) (l : List ℕ)
    (f : NeuralFabric) : (growFold zone start f l).synapses = f.synapses := by
  induction l generalizing f with
  | nil => rfl
  | cons i rest ih => exact ih _

theorem add_neurons_hasNeuron_mono (f : NeuralFabric) (n : ℕ) (z : String) (u : ℕ)
    (h : f.hasNeuron u = true) : (f.add_neurons n z).hasNeuron u = true := by
  unfold NeuralFabric.add_neurons
  split
  · exact h
  · split
    · exact h
    · exact growFold_hasNeuron_mono z f.neurons.length (List.range n) f u h

theorem add_neurons_synapses (f : NeuralFabric) (n : ℕ) (z : String) :
    (f.add_neurons n z).synapses = f.synapses := by
  unfold NeuralFabric.add_neurons
  split
  · rfl
  · split
    · rfl
    · exact growFold_synapses z f.neurons.length (List.range n) f

theorem bind_fst_synapses (f : NeuralFabric) (sym : String) (ids : Finset ℕ) :
    (f.bind sym ids).1.synapses = f.synapses := by
  unfold NeuralFabric.bind
  split <;> rfl

theorem bind_fst_hasNeuron (f : NeuralFabric) (sym : String) (ids : Finset ℕ)
    (u : ℕ) : (f.bind sym ids).1.hasNeuron u = f.hasNeuron u := by
  unfold NeuralFabric.bind
  split <;> rfl

theorem recall_fst_synapses (f : NeuralFabric) (cue : Finset ℕ) (st : ℚ) :
    (MemoryCore.recall f cue st).1.synapses = f.synapses := by
  unfold MemoryCore.recall
  split <;> rfl

theorem recall_fst_hasNeuron (f : NeuralFabric) (cue : Finset ℕ) (st : ℚ) (u : ℕ) :
    (MemoryCore.recall f cue st).1.hasNeuron u = f.hasNeuron u := by
  unfold MemoryCore.recall
  split
  · rfl
  · unfold NeuralFabric.hasNeuron
    exact any_key_map f.neurons
      (fun p => (p.1, p.2.receive_signal (st *
        (((strongLinks f cue).filter (fun s => decide (s.target_uid = p.1))).length : ℚ))))
      (fun p => rfl) u

theorem dream_synapses (f : NeuralFabric) (m : MemoryCore) (c : ℕ) :
    (MemoryCore.dream f m c).synapses = f.synapses := by
  unfold MemoryCore.dream
  split
  · rfl
  · exact activate_pattern_synapses f _ _

theorem dream_hasNeuron (f : NeuralFabric) (m : MemoryCore) (c : ℕ) (u : ℕ) :
    (MemoryCore.dream f m c).hasNeuron u = f.hasNeuron u := by
  unfold MemoryCore.dream
  split
  · rfl
  · exact activate_pattern_hasNeuron f _ _ u

theorem prune_synapses_mem (f : NeuralFabric) (th d : ℚ) (s' : Synapse)
    (h : s' ∈ (MemoryCore.prune_synapses f th d).synapses) :
    ∃ s ∈ f.synapses, s'.source_uid = s.source_uid ∧ s'.target_uid = s.target_uid ∧
      s'.weight = s.weight * d := by
  unfold MemoryCore.prune_synapses at h
  rcases List.mem_filter.mp h with ⟨hmap, _⟩
  rcases List.mem_map.mp hmap with ⟨s, hs, rfl⟩
  exact ⟨s, hs, rfl, rfl, rfl⟩

theorem stepCore_synapses_mem (f : NeuralFabric) (t : ℚ) (s' : Synapse)
    (h : s' ∈ (f.stepCore t).synapses) :
    ∃ s ∈ f.synapses, s'.source_uid = s.source_uid ∧ s'.target_uid = s.target_uid ∧
      (s'.weight = s.weight ∨ s'.weight = min 1 (s.weight + 1 / 100)) := by
  unfold NeuralFabric.stepCore at h
  rcases update_power_estimate_synapses_mem _ t s' h with ⟨s1, hs1, hsrc1, htgt1, hw1⟩
  rcases propagatePass_synapses_mem _ _ s1 hs1 with ⟨s0, hs0, hsrc0, htgt0, hw0⟩
  refine ⟨s0, hs0, hsrc1.trans hsrc0, htgt1.trans htgt0, ?_⟩
  rcases hw0 with h0 | h0
  · exact Or.inl (hw1.trans h0)
  · exact Or.inr (hw1.trans h0)

theorem pairFold_neurons (a : ℕ) (bs : List ℕ) (f : NeuralFabric) :
    (bs.foldl (fun g b =>
      (g.connect_neurons a b (7 / 10)).connect_neurons b a (7 / 10)) f).neurons =
      f.neurons := by
  induction bs generalizing f with
  | nil => rfl
  | cons b rest ih =>
      rw [List.foldl_cons, ih, connect_neurons_neurons, connect_neurons_neurons]

theorem pairFold_synapses_mem (a : ℕ) (bs : List ℕ) (f : NeuralFabric)
    (s' : Synapse)
    (h : s' ∈ (bs.foldl (fun g b =>
      (g.connect_neurons a b (7 / 10)).connect_neurons b a (7 / 10)) f).synapses) :
    s' ∈ f.synapses ∨ (s'.weight = 7 / 10 ∧ f.hasNeuron s'.source_uid = true ∧
      f.hasNeuron s'.target_uid = true) := by
  induction bs generalizing f with
  | nil => exact Or.inl h
  | cons b rest ih =>
      rw [List.foldl_cons] at h
      rcases ih _ h with h1 | h1
      · rcases connect_synapses_mem _ b a (7 / 10) s' h1 with h2 | h2
        · rcases connect_synapses_mem f a b (7 / 10) s' h2 with h3 | h3
          · exact Or.inl h3
          · rcases h3 with ⟨rfl, ha, hb⟩
            exact Or.inr ⟨rfl, ha, hb⟩
        · rcases h2 with ⟨rfl, hb, ha⟩
          rw [connect_neurons_hasNeuron] at hb
          rw [connect_neurons_hasNeuron] at ha
          exact Or.inr ⟨rfl, hb, ha⟩
      · rcases h1 with ⟨hw, hsrc, htgt⟩
        rw [connect_neurons_hasNeuron, connect_neurons_hasNeuron] at hsrc
        rw [connect_neurons_hasNeuron, connect_neurons_hasNeuron] at htgt
        exact Or.inr ⟨hw, hsrc, htgt⟩

theorem strengthenList_neurons (l : List ℕ) (f : NeuralFabric) :
    (strengthenList f l).neurons = f.neurons := by
  induction l generalizing f with
  | nil => rfl
  | cons a rest ih =>
      show (strengthenList (rest.foldl (fun g b =>
        (g.connect_neurons a b (7 / 10)).connect_neurons b a (7 / 10)) f) rest).neurons =
        f.neurons
      rw [ih, pairFold_neurons]

theorem strengthenList_hasNeuron (l : List ℕ) (f : NeuralFabric) (u : ℕ) :
    (strengthenList f l).hasNeuron u = f.hasNeuron u := by
  unfold NeuralFabric.hasNeuron
  rw [strengthenList_neurons]

theorem strengthenList_synapses_mem (l : List ℕ) (f : NeuralFabric) (s' : Synapse)
    (h : s' ∈ (strengthenList f l).synapses) :
    s' ∈ f.synapses ∨ (s'.weight = 7 / 10 ∧ f.hasNeuron s'.source_uid = true ∧
      f.hasNeuron s'.target_uid = true) := by
  induction l generalizing f with
  | nil => exact Or.inl h
  | cons a rest ih =>
      have h' : s' ∈ (strengthenList (rest.foldl (fun g b =>
        (g.connect_neurons a b (7 / 10)).connect_neurons b a (7 / 10)) f) rest).synapses := h
      rcases ih _ h' with h1 | h1
      · exact pairFold_synapses_mem a rest f s' h1
      · rcases h1 with ⟨hw, hsrc, htgt⟩
        have hn : ∀ u, ((rest.foldl (fun g b =>
            (g.connect_neurons a b (7 / 10)).connect_neurons b a (7 / 10)) f)).hasNeuron u =
            f.hasNeuron u := by
          intro u
          unfold NeuralFabric.hasNeuron
          rw [pairFold_neurons]
        rw [hn s'.source_uid] at hsrc
        rw [hn s'.target_uid] at htgt
        exact Or.inr ⟨hw, hsrc, htgt⟩

theorem strengthen_pattern_neurons (f : NeuralFabric) (p : Finset ℕ) :
    (MemoryCore.strengthen_pattern f p).neurons = f.neurons :=
  strengthenList_neurons (patList p) f

theorem strengthen_pattern_synapses_mem (f : NeuralFabric) (p : Finset ℕ)
    (s' : Synapse) (h : s' ∈ (MemoryCore.strengthen_pattern f p).synapses) :
    s' ∈ f.synapses ∨ (s'.weight = 7 / 10 ∧ f.hasNeuron s'.source_uid = true ∧
      f.hasNeuron s'.target_uid = true) :=
  strengthenList_synapses_mem (patList p) f s' h

theorem consolidateFoldl_neurons (sal : List (Finset ℕ))
    (acc : NeuralFabric × List (Finset ℕ)) :
    (sal.foldl consolidateStep acc).1.neurons = acc.1.neurons := by
  induction sal generalizing acc with
  | nil => rfl
  | cons p rest ih =>
      rw [List.foldl_cons, ih]
      exact strengthen_pattern_neurons acc.1 p

theorem consolidateFoldl_hasNeuron (sal : List (Finset ℕ))
    (acc : NeuralFabric × List (Finset ℕ)) (u : ℕ) :
    (sal.foldl consolidateStep acc).1.hasNeuron u = acc.1.hasNeuron u := by
  unfold NeuralFabric.hasNeuron
  rw [consolidateFoldl_neurons]

theorem consolidateFoldl_synapses_mem (sal : List (Finset ℕ))
    (acc : NeuralFabric × List (Finset ℕ)) (s' : Synapse)
    (h : s' ∈ (sal.foldl consolidateStep acc).1.synapses) :
    s' ∈ acc.1.synapses ∨ (s'.weight = 7 / 10 ∧
      acc.1.hasNeuron s'.source_uid = true ∧ acc.1.hasNeuron s'.target_uid = true) := by
  induction sal generalizing acc with
  | nil => exact Or.inl h
  | cons p rest ih =>
      rw [List.foldl_cons] at h
      rcases ih _ h with h1 | h1
      · exact strengthen_pattern_synapses_mem acc.1 p s' h1
      · rcases h1 with ⟨hw, hsrc, htgt⟩
        have hn : ∀ u, (consolidateStep acc p).1.hasNeuron u = acc.1.hasNeuron u := by
          intro u
          unfold NeuralFabric.hasNeuron consolidateStep
          rw [strengthen_pattern_neurons]
        rw [hn s'.source_uid] at hsrc
        rw [hn s'.target_uid] at htgt
        exact Or.inr ⟨hw, hsrc, htgt⟩

end Jarvis

namespace Jarvis

theorem applyOp_linksClosed (f : NeuralFabric) (m : MemoryCore) (op : Op)
    (h : linksClosed f) : linksClosed (applyOp (f, m) op).1 := by
  cases op with
  | grow n z =>
      simp only [applyOp]
      intro s hs
      rw [add_neurons_synapses] at hs
      rcases h s hs with ⟨h1, h2⟩
      exact ⟨add_neurons_hasNeuron_mono f n z _ h1,
        add_neurons_hasNeuron_mono f n z _ h2⟩
  | connect a b w =>
      simp only [applyOp]
      intro s hs
      rcases connect_synapses_mem f a b w s hs with hmem | hnew
      · rcases h s hmem with ⟨h1, h2⟩
        constructor
        · rw [connect_neurons_hasNeuron]
          exact h1
        · rw [connect_neurons_hasNeuron]
          exact h2
      · rcases hnew with ⟨rfl, ha, hb⟩
        constructor
        · rw [connect_neurons_hasNeuron]
          exact ha
        · rw [connect_neurons_hasNeuron]
          exact hb
  | activate ids st =>
      simp only [applyOp]
      intro s hs
      rw [activate_pattern_synapses] at hs
      rcases h s hs with ⟨h1, h2⟩
      constructor
      · rw [activate_pattern_hasNeuron]
        exact h1
      · rw [activate_pattern_hasNeuron]
        exact h2
  | bindSym sym ids =>
      simp only [applyOp]
      intro s hs
      rw [bind_fst_synapses] at hs
      rcases h s hs with ⟨h1, h2⟩
      constructor
      · rw [bind_fst_hasNeuron]
        exact h1
      · rw [bind_fst_hasNeuron]
        exact h2
  | stepSim t =>
      have hst : (f.step_simulation t).1 = f.stepCore t := by rw [step_simulation_eq]
      show linksClosed (f.step_simulation t).1
      rw [hst]
      intro s' hs'
      rcases stepCore_synapses_mem f t s' hs' with ⟨s, hsmem, hsrc, htgt, _⟩
      rcases h s hsmem with ⟨h1, h2⟩
      constructor
      · rw [stepCore_hasNeuron, hsrc]
        exact h1
      · rw [stepCore_hasNeuron, htgt]
        exact h2
  | observe p => exact h
  | consolidate =>
      show linksClosed (MemoryCore.consolidate f m).1
      unfold MemoryCore.consolidate
      split
      · exact h
      · split
        · exact h
        · intro s' hs'
          have hs'' : s' ∈ ((m.salient_patterns.foldl consolidateStep
              (f, m.consolidated_patterns)).1).synapses := hs'
          rcases consolidateFoldl_synapses_mem _ _ s' hs'' with hmem | hnew
          · rcases h s' hmem with ⟨h1, h2⟩
            constructor
            · show (m.salient_patterns.foldl consolidateStep
                (f, m.consolidated_patterns)).1.hasNeuron s'.source_uid = true
              rw [consolidateFoldl_hasNeuron]
              exact h1
            · show (m.salient_patterns.foldl consolidateStep
                (f, m.consolidated_patterns)).1.hasNeuron s'.target_uid = true
              rw [consolidateFoldl_hasNeuron]
              exact h2
          · rcases hnew with ⟨_, hsrc, htgt⟩
            constructor
            · show (m.salient_patterns.foldl consolidateStep
                (f, m.consolidated_patterns)).1.hasNeuron s'.source_uid = true
              rw [consolidateFoldl_hasNeuron]
              exact hsrc
            · show (m.salient_patterns.foldl consolidateStep
                (f, m.consolidated_patterns)).1.hasNeuron s'.target_uid = true
              rw [consolidateFoldl_hasNeuron]
              exact htgt
  | dream c =>
      simp only [applyOp]
      intro s hs
      rw [dream_synapses] at hs
      rcases h s hs with ⟨h1, h2⟩
      constructor
      · rw [dream_hasNeuron]
        exact h1
      · rw [dream_hasNeuron]
        exact h2
  | recallCue cue st =>
      simp only [applyOp]
      intro s hs
      rw [recall_fst_synapses] at hs
      rcases h s hs with ⟨h1, h2⟩
      constructor
      · rw [recall_fst_hasNeuron]
        exact h1
      · rw [recall_fst_hasNeuron]
        exact h2
  | prune th d =>
      simp only [applyOp]
      intro s' hs'
      rcases prune_synapses_mem f th d s' hs' with ⟨s, hsmem, hsrc, htgt, _⟩
      rcases h s hsmem with ⟨h1, h2⟩
      constructor
      · rw [hsrc]
        exact h1
      · rw [htgt]
        exact h2

theorem foldl_applyOp_linksClosed (ops : List Op) :
    ∀ σ : NeuralFabric × MemoryCore, linksClosed σ.1 →
      linksClosed ((ops.foldl applyOp σ).1) := by
  induction ops with
  | nil => exact fun σ h => h
  | cons op rest ih =>
      intro σ h
      rw [List.foldl_cons]
      apply ih
      obtain ⟨f, m⟩ := σ
      exact applyOp_linksClosed f m op h

theorem applyOp_weightsInRange (f : NeuralFabric) (m : MemoryCore) (op : Op)
    (hok : op.weightOK) (h : weightsInRange f) :
    weightsInRange (applyOp (f, m) op).1 := by
  cases op with
  | grow n z =>
      simp only [applyOp]
      intro s hs
      rw [add_neurons_synapses] at hs
      exact h s hs
  | connect a b w =>
      simp only [applyOp]
      intro s hs
      rcases connect_synapses_mem f a b w s hs with hmem | hnew
      · exact h s hmem
      · rcases hnew with ⟨rfl, _, _⟩
        exact hok
  | activate ids st =>
      simp only [applyOp]
      intro s hs
      rw [activate_pattern_synapses] at hs
      exact h s hs
  | bindSym sym ids =>
      simp only [applyOp]
      intro s hs
      rw [bind_fst_synapses] at hs
      exact h s hs
  | stepSim t =>
      have hst : (f.step_simulation t).1 = f.stepCore t := by rw [step_simulation_eq]
      show weightsInRange (f.step_simulation t).1
      rw [hst]
      intro s' hs'
      rcases stepCore_synapses_mem f t s' hs' with ⟨s, hsmem, _, _, hw⟩
      rcases h s hsmem with ⟨h0, h1⟩
      rcases hw with hw | hw
      · rw [hw]
        exact ⟨h0, h1⟩
      · rw [hw]
        constructor
        · apply le_min
          · norm_num
          · linarith
        · exact min_le_left _ _
  | observe p => exact h
  | consolidate =>
      show weightsInRange (MemoryCore.consolidate f m).1
      unfold MemoryCore.consolidate
      split
      · exact h
      · split
        · exact h
        · intro s' hs'
          have hs'' : s' ∈ ((m.salient_patterns.foldl consolidateStep
              (f, m.consolidated_patterns)).1).synapses := hs'
          rcases consolidateFoldl_synapses_mem _ _ s' hs'' with hmem | hnew
          · exact h s' hmem
          · rw [hnew.1]
            norm_num
  | dream c =>
      simp only [applyOp]
      intro s hs
      rw [dream_synapses] at hs
      exact h s hs
  | recallCue cue st =>
      simp only [applyOp]
      intro s hs
      rw [recall_fst_synapses] at hs
      exact h s hs
  | prune th d =>
      simp only [applyOp]
      intro s' hs'
      rcases prune_synapses_mem f th d s' hs' with ⟨s, hsmem, _, _, hw⟩
      rcases h s hsmem with ⟨h0, h1⟩
      rcases hok with ⟨hd0, hd1⟩
      rw [hw]
      exact ⟨mul_nonneg h0 hd0, mul_le_one₀ h1 hd0 hd1⟩

theorem foldl_applyOp_weightsInRange (ops : List Op) :
    ∀ σ : NeuralFabric × MemoryCore, (∀ op ∈ ops, op.weightOK) →
      weightsInRange σ.1 → weightsInRange ((ops.foldl applyOp σ).1) := by
  induction ops with
  | nil => exact fun σ _ h => h
  | cons op rest ih =>
      intro σ hops h
      rw [List.foldl_cons]
      apply ih _ (fun o ho => hops o (List.mem_cons_of_mem op ho))
      obtain ⟨f, m⟩ := σ
      exact applyOp_weightsInRange f m op (hops op (List.mem_cons_self op rest)) h

/-! ### Claim C5 -/

/-- C5: when every stored link weight lies in [0, 1], it still does after any
single public operation, and after any sequence of them, provided the
operations themselves only inject weights in [0, 1] (`connect`'s weight
argument and `prune`'s decay factor; the source's defaults 0.1, 0.7 and 0.99
qualify).  In particular the bound holds immediately after each Hebbian
reinforcement inside `step()` and after each `prune()` pass. -/
theorem C5_weights_stay_in_unit_interval (f : NeuralFabric) (m : MemoryCore)
    (h : weightsInRange f) :
    (∀ op : Op, op.weightOK → weightsInRange (applyOp (f, m) op).1) ∧
    (∀ ops : List Op, (∀ op ∈ ops, op.weightOK) →
      weightsInRange ((ops.foldl applyOp (f, m)).1)) :=
  ⟨fun op hop => applyOp_weightsInRange f m op hop h,
   fun ops hops => foldl_applyOp_weightsInRange ops (f, m) hops h⟩

/-- C5 (witness): one step plus a prune pass on the concrete fabric keeps all
weights inside [0, 1]. -/
theorem C5_witness :
    weightsInRange (([Op.stepSim 0, Op.prune (1 / 20) (99 / 100)].foldl applyOp
      (fabW, MemoryCore.init 3)).1) :=
  (C5_weights_stay_in_unit_interval fabW (MemoryCore.init 3)
      (by unfold weightsInRange; decide)).2
    [Op.stepSim 0, Op.prune (1 / 20) (99 / 100)]
    (by intro op hop; fin_cases hop <;> constructor <;> norm_num)

/-! ### Claim C10 -/

/-- C10: when every stored link joins two existing unit ids, this referential
integrity is preserved by every public operation and every sequence of them
(units are never removed; links are only created after an existence check);
consequently the unchecked unit lookups of `step()`'s propagation pass (the
targets of links out of fired sources) and of the Memory Controller's cued
recall (the targets of strong links out of cue units) always hit an existing
unit. -/
theorem C10_links_reference_existing_units (f : NeuralFabric) (m : MemoryCore)
    (h : linksClosed f) :
    (∀ op : Op, linksClosed (applyOp (f, m) op).1) ∧
    (∀ ops : List Op, linksClosed ((ops.foldl applyOp (f, m)).1)) ∧
    (∀ s ∈ f.synapses, s.source_uid ∈ f.firedSet →
      f.hasNeuron s.target_uid = true) ∧
    (∀ cue : Finset ℕ, ∀ s ∈ f.synapses, s.source_uid ∈ cue →
      (1 : ℚ) / 2 < s.weight → f.hasNeuron s.target_uid = true) := by
  refine ⟨fun op => applyOp_linksClosed f m op h,
    fun ops => foldl_applyOp_linksClosed ops (f, m) h, ?_, ?_⟩
  · intro s hs _
    exact (h s hs).2
  · intro cue s hs _ _
    exact (h s hs).2

/-- C10 (witness): the concrete fabric is links-closed, and stays so after a
grow, a connect, a step and a consolidate. -/
theorem C10_witness :
    linksClosed (([Op.grow 2 "w", Op.connect 0 2 (1 / 10), Op.stepSim 0,
      Op.consolidate].foldl applyOp (fabW, MemoryCore.init 3)).1) :=
  (C10_links_reference_existing_units fabW (MemoryCore.init 3)
      (by unfold linksClosed; decide)).2.1
    [Op.grow 2 "w", Op.connect 0 2 (1 / 10), Op.stepSim 0, Op.consolidate]

end Jarvis

namespace Jarvis

/-! ### Short-term buffer and salience computations -/

theorem observeTimes_init (p : Finset ℕ) (hp : 1 < p.card) (th : ℕ) :
    ∀ k, k ≤ 100 →
      (observeTimes (MemoryCore.init th) p k).short_term_memory = List.replicate k p ∧
      (observeTimes (MemoryCore.init th) p k).consolidated_patterns = [] ∧
      (observeTimes (MemoryCore.init th) p k).consolidation_threshold = th := by
  intro k
  induction k with
  | zero => exact fun _ => ⟨rfl, rfl, rfl⟩
  | succ k ih =>
      intro hk
      rcases ih (Nat.le_of_succ_le hk) with ⟨h1, h2, h3⟩
      simp only [observeTimes]
      unfold MemoryCore.observe
      rw [if_pos hp]
      refine ⟨?_, h2, h3⟩
      rw [h1]
      have hcond : ¬(100 < (List.replicate k p ++ [p]).length) := by
        simp only [List.length_append, List.length_replicate, List.length_singleton]
        omega
      rw [if_neg hcond]
      exact (List.replicate_succ' k p).symm

theorem foldl_firstOcc_const (k : ℕ) (p : Finset ℕ) :
    ∀ acc, p ∈ acc →
      (List.replicate k p).foldl
        (fun acc q => if q ∈ acc then acc else acc ++ [q]) acc = acc := by
  induction k with
  | zero => exact fun acc _ => rfl
  | succ k ih =>
      intro acc hacc
      rw [List.replicate_succ, List.foldl_cons, if_pos hacc]
      exact ih acc hacc

theorem firstOccurrences_replicate (k : ℕ) (p : Finset ℕ) (hk : k ≠ 0) :
    firstOccurrences (List.replicate k p) = [p] := by
  obtain ⟨j, rfl⟩ := Nat.exists_eq_succ_of_ne_zero hk
  unfold firstOccurrences
  rw [List.replicate_succ, List.foldl_cons]
  have h0 : (if p ∈ ([] : List (Finset ℕ)) then ([] : List (Finset ℕ))
      else [] ++ [p]) = [p] := by
    rw [if_neg (List.not_mem_nil p)]
    rfl
  rw [h0]
  exact foldl_firstOcc_const j p [p] (List.mem_singleton.mpr rfl)

theorem count_replicate_self (k : ℕ) (p : Finset ℕ) :
    (List.replicate k p).count p = k := by
  induction k with
  | zero => rfl
  | succ k ih =>
      rw [List.replicate_succ, List.count_cons]
      simp [ih]

theorem patList_coe (p : Finset ℕ) : (↑(patList p) : Multiset ℕ) = p.val := by
  obtain ⟨m, hnd⟩ := p
  induction m using Quotient.inductionOn with
  | h l =>
      show (↑(l.insertionSort (· ≤ ·)) : Multiset ℕ) = (↑l : Multiset ℕ)
      exact Multiset.coe_eq_coe.mpr (l.perm_insertionSort (· ≤ ·))

theorem patList_mem (p : Finset ℕ) (x : ℕ) : x ∈ patList p ↔ x ∈ p := by
  rw [← Multiset.mem_coe, patList_coe]
  exact Iff.rfl

theorem patList_nodup (p : Finset ℕ) : (patList p).Nodup := by
  rw [← Multiset.coe_nodup, patList_coe]
  exact p.nodup

end Jarvis

namespace Jarvis

/-! ### What `_strengthen_pattern`'s double loop creates -/

theorem pairFold_syn?_untouched (a : ℕ) (bs : List ℕ) (f : NeuralFabric) (x y : ℕ)
    (hx : x = a → y ∉ bs) (hy : y = a → x ∉ bs) :
    (bs.foldl (fun g b =>
      (g.connect_neurons a b (7 / 10)).connect_neurons b a (7 / 10)) f).syn? x y =
      f.syn? x y := by
  induction bs generalizing f with
  | nil => rfl
  | cons b rest ih =>
      rw [List.foldl_cons]
      rw [ih _ (fun h hmem => hx h (List.mem_cons_of_mem b hmem))
            (fun h hmem => hy h (List.mem_cons_of_mem b hmem))]
      have hk1 : ¬(x = b ∧ y = a) := by
        rintro ⟨hxb, hya⟩
        exact hy hya (by rw [hxb]; exact List.mem_cons_self b rest)
      have hk2 : ¬(x = a ∧ y = b) := by
        rintro ⟨hxa, hyb⟩
        exact hx hxa (by rw [hyb]; exact List.mem_cons_self b rest)
      rw [connect_syn?_other _ b a x y _ hk1, connect_syn?_other f a b x y _ hk2]

theorem pairFold_syn?_creates (a : ℕ) (bs : List ℕ) (f : NeuralFabric)
    (ha : f.hasNeuron a = true) (hbs : ∀ b ∈ bs, f.hasNeuron b = true)
    (hnd : bs.Nodup) (hna : a ∉ bs)
    (h1 : ∀ b ∈ bs, f.syn? a b = none) (h2 : ∀ b ∈ bs, f.syn? b a = none) :
    ∀ b ∈ bs,
      (bs.foldl (fun g c =>
        (g.connect_neurons a c (7 / 10)).connect_neurons c a (7 / 10)) f).syn? a b =
        some ⟨a, b, 7 / 10, 0⟩ ∧
      (bs.foldl (fun g c =>
        (g.connect_neurons a c (7 / 10)).connect_neurons c a (7 / 10)) f).syn? b a =
        some ⟨b, a, 7 / 10, 0⟩ := by
  induction bs generalizing f with
  | nil => exact fun b hb => absurd hb (List.not_mem_nil b)
  | cons c rest ih =>
      intro b hb
      rw [List.foldl_cons]
      have hcmem := List.mem_cons_self c rest
      have hac : a ≠ c := fun h => hna (by rw [h]; exact hcmem)
      have hnodup := List.nodup_cons.mp hnd
      have hgac : ((f.connect_neurons a c (7 / 10)).connect_neurons c a
          (7 / 10)).syn? a c = some ⟨a, c, 7 / 10, 0⟩ := by
        rw [connect_syn?_other _ c a a c _ (fun hcon => hac hcon.1)]
        exact connect_syn?_self f a c (7 / 10) ha (hbs c hcmem) (h1 c hcmem)
      have hgca : ((f.connect_neurons a c (7 / 10)).connect_neurons c a
          (7 / 10)).syn? c a = some ⟨c, a, 7 / 10, 0⟩ := by
        apply connect_syn?_self
        · rw [connect_neurons_hasNeuron]
          exact hbs c hcmem
        · rw [connect_neurons_hasNeuron]
          exact ha
        · rw [connect_syn?_other f a c c a _ (fun hcon => hac hcon.2)]
          exact h2 c hcmem
      rcases List.mem_cons.mp hb with rfl | hbrest
      · have hcnr : b ∉ rest := hnodup.1
        constructor
        · rw [pairFold_syn?_untouched a rest _ a b (fun _ => hcnr)
            (fun hca => absurd hca.symm hac)]
          exact hgac
        · rw [pairFold_syn?_untouched a rest _ b a
            (fun hca => absurd hca.symm hac) (fun _ => hcnr)]
          exact hgca
      · refine ih _ ?_ ?_ hnodup.2 ?_ ?_ ?_ b hbrest
        · rw [connect_neurons_hasNeuron, connect_neurons_hasNeuron]
          exact ha
        · intro b' hb'
          rw [connect_neurons_hasNeuron, connect_neurons_hasNeuron]
          exact hbs b' (List.mem_cons_of_mem c hb')
        · exact fun h => hna (List.mem_cons_of_mem c h)
        · intro b' hb'
          have hb'c : b' ≠ c := fun h => hnodup.1 (h ▸ hb')
          rw [connect_syn?_other _ c a a b' _ (fun hcon => hac hcon.1)]
          rw [connect_syn?_other f a c a b' _ (fun hcon => hb'c hcon.2)]
          exact h1 b' (List.mem_cons_of_mem c hb')
        · intro b' hb'
          have hb'c : b' ≠ c := fun h => hnodup.1 (h ▸ hb')
          rw [connect_syn?_other _ c a b' a _ (fun hcon => hb'c hcon.1)]
          rw [connect_syn?_other f a c b' a _ (fun hcon => hac hcon.2)]
          exact h2 b' (List.mem_cons_of_mem c hb')

theorem strengthenList_syn?_untouched (l : List ℕ) (f : NeuralFabric) (x y : ℕ)
    (h : x ∉ l ∨ y ∉ l) :
    (strengthenList f l).syn? x y = f.syn? x y := by
  induction l generalizing f with
  | nil => rfl
  | cons a rest ih =>
      simp only [strengthenList]
      have hrest : x ∉ rest ∨ y ∉ rest := by
        rcases h with h | h
        · exact Or.inl (fun hm => h (List.mem_cons_of_mem a hm))
        · exact Or.inr (fun hm => h (List.mem_cons_of_mem a hm))
      rw [ih _ hrest]
      apply pairFold_syn?_untouched
      · intro hxa
        rcases h with h | h
        · exact absurd (by rw [hxa]; exact List.mem_cons_self a rest) h
        · exact fun hm => h (List.mem_cons_of_mem a hm)
      · intro hya
        rcases h with h | h
        · exact fun hm => h (List.mem_cons_of_mem a hm)
        · exact absurd (by rw [hya]; exact List.mem_cons_self a rest) h

theorem strengthenList_creates (l : List ℕ) (f : NeuralFabric) (hnd : l.Nodup)
    (hex : ∀ u ∈ l, f.hasNeuron u = true)
    (hnone : ∀ x ∈ l, ∀ y ∈ l, x ≠ y → f.syn? x y = none) :
    ∀ x ∈ l, ∀ y ∈ l, x ≠ y →
      (strengthenList f l).syn? x y = some ⟨x, y, 7 / 10, 0⟩ := by
  induction l generalizing f with
  | nil => exact fun x hx => absurd hx (List.not_mem_nil x)
  | cons a rest ih =>
      intro x hx y hy hxy
      simp only [strengthenList]
      have hnodup := List.nodup_cons.mp hnd
      have hamem := List.mem_cons_self a rest
      have hcreate := pairFold_syn?_creates a rest f (hex a hamem)
        (fun b hb => hex b (List.mem_cons_of_mem a hb)) hnodup.2 hnodup.1
        (fun b hb => hnone a hamem b (List.mem_cons_of_mem a hb)
          (fun h => hnodup.1 (by rw [h]; exact hb)))
        (fun b hb => hnone b (List.mem_cons_of_mem a hb) a hamem
          (fun h => hnodup.1 (by rw [← h]; exact hb)))
      rcases List.mem_cons.mp hx with rfl | hxrest
      · have hyrest : y ∈ rest := by
          rcases List.mem_cons.mp hy with h | h
          · exact absurd h.symm hxy
          · exact h
        rw [strengthenList_syn?_untouched rest _ x y (Or.inl hnodup.1)]
        exact (hcreate y hyrest).1
      · rcases List.mem_cons.mp hy with rfl | hyrest
        · rw [strengthenList_syn?_untouched rest _ x y (Or.inr hnodup.1)]
          exact (hcreate x hxrest).2
        · refine ih _ hnodup.2 ?_ ?_ x hxrest y hyrest hxy
          · intro u hu
            have hn : ∀ v, ((rest.foldl (fun g b =>
                (g.connect_neurons a b (7 / 10)).connect_neurons b a (7 / 10))
                f)).hasNeuron v = f.hasNeuron v := by
              intro v
              unfold NeuralFabric.hasNeuron
              rw [pairFold_neurons]
            rw [hn u]
            exact hex u (List.mem_cons_of_mem a hu)
          · intro x' hx' y' hy' hxy'
            rw [pairFold_syn?_untouched a rest f x' y'
              (fun h => absurd (h ▸ hx') hnodup.1)
              (fun h => absurd (h ▸ hy') hnodup.1)]
            exact hnone x' (List.mem_cons_of_mem a hx') y'
              (List.mem_cons_of_mem a hy') hxy'

end Jarvis

namespace Jarvis

/-! ### Claim C3 -/

/-- C3: starting from a fresh controller with threshold `th` (1 ≤ th ≤ 100,
covering the default 3), for a pattern `p` of more than one existing unit id
with no pre-existing links among its members: observing `p` exactly `th − 1`
times and consolidating does NOT add it to the consolidated set, while
observing it `th` times and consolidating adds it and creates both directed
links of weight 0.7 (the consolidation weight) between every pair of distinct
members. -/
theorem C3_consolidation_threshold (f : NeuralFabric) (p : Finset ℕ) (th : ℕ)
    (hth1 : 1 ≤ th) (hth2 : th ≤ 100) (hcard : 1 < p.card)
    (hex : ∀ u ∈ p, f.hasNeuron u = true)
    (hnone : ∀ a ∈ p, ∀ b ∈ p, a ≠ b → f.syn? a b = none) :
    p ∉ (MemoryCore.consolidate f
      (observeTimes (MemoryCore.init th) p (th - 1))).2.consolidated_patterns ∧
    p ∈ (MemoryCore.consolidate f
      (observeTimes (MemoryCore.init th) p th)).2.consolidated_patterns ∧
    ∀ a ∈ p, ∀ b ∈ p, a ≠ b →
      (MemoryCore.consolidate f
        (observeTimes (MemoryCore.init th) p th)).1.weight? a b = some (7 / 10) := by
  obtain ⟨hstmA, hconsA, hthA⟩ :=
    observeTimes_init p hcard th (th - 1) (le_trans (Nat.sub_le th 1) hth2)
  obtain ⟨hstmB, hconsB, hthB⟩ := observeTimes_init p hcard th th hth2
  have hA : p ∉ (MemoryCore.consolidate f
      (observeTimes (MemoryCore.init th) p (th - 1))).2.consolidated_patterns := by
    by_cases hz : th - 1 = 0
    · unfold MemoryCore.consolidate
      rw [if_pos (by rw [hstmA, hz]; rfl)]
      show p ∉ (observeTimes (MemoryCore.init th) p (th - 1)).consolidated_patterns
      rw [hconsA]
      exact List.not_mem_nil p
    · have hsalA : (observeTimes (MemoryCore.init th) p
          (th - 1)).salient_patterns = [] := by
        unfold MemoryCore.salient_patterns
        rw [hstmA, hthA, firstOccurrences_replicate (th - 1) p hz, List.filter_cons]
        have hdecA : (decide (th ≤ (List.replicate (th - 1) p).count p)) = false := by
          rw [count_replicate_self]
          rw [decide_eq_false_iff_not]
          omega
        rw [hdecA]
        simp
      unfold MemoryCore.consolidate
      rw [if_neg (by
        rw [hstmA]
        intro hcon
        apply hz
        have hlen := congrArg List.length hcon
        simpa using hlen)]
      rw [if_pos hsalA]
      show p ∉ (observeTimes (MemoryCore.init th) p (th - 1)).consolidated_patterns
      rw [hconsA]
      exact List.not_mem_nil p
  have hthne : th ≠ 0 := Nat.one_le_iff_ne_zero.mp hth1
  have hstmB_ne : (observeTimes (MemoryCore.init th) p th).short_term_memory ≠ [] := by
    rw [hstmB]
    intro hcon
    apply hthne
    have hlen := congrArg List.length hcon
    simpa using hlen
  have hsalB : (observeTimes (MemoryCore.init th) p th).salient_patterns = [p] := by
    unfold MemoryCore.salient_patterns
    rw [hstmB, hthB, firstOccurrences_replicate th p hthne, List.filter_cons]
    have hdecB : (decide (th ≤ (List.replicate th p).count p)) = true := by
      rw [count_replicate_self]
      simp
    rw [hdecB]
    simp
  have hsalB_ne : (observeTimes (MemoryCore.init th) p th).salient_patterns ≠ [] := by
    rw [hsalB]
    exact List.cons_ne_nil p []
  have hB2 : (MemoryCore.consolidate f
      (observeTimes (MemoryCore.init th) p th)).2.consolidated_patterns = [p] := by
    unfold MemoryCore.consolidate
    rw [if_neg hstmB_ne, if_neg hsalB_ne]
    show (consolidateFold f
      (observeTimes (MemoryCore.init th) p th).consolidated_patterns
      (observeTimes (MemoryCore.init th) p th).salient_patterns).2 = [p]
    rw [hsalB, hconsB]
    simp only [consolidateFold, List.foldl_cons, List.foldl_nil, consolidateStep]
    rw [if_neg (List.not_mem_nil p)]
    rfl
  have hB1 : (MemoryCore.consolidate f
      (observeTimes (MemoryCore.init th) p th)).1 =
      MemoryCore.strengthen_pattern f p := by
    unfold MemoryCore.consolidate
    rw [if_neg hstmB_ne, if_neg hsalB_ne]
    show (consolidateFold f
      (observeTimes (MemoryCore.init th) p th).consolidated_patterns
      (observeTimes (MemoryCore.init th) p th).salient_patterns).1 =
      MemoryCore.strengthen_pattern f p
    rw [hsalB]
    simp only [consolidateFold, List.foldl_cons, List.foldl_nil, consolidateStep]
  refine ⟨hA, ?_, ?_⟩
  · rw [hB2]
    exact List.mem_singleton.mpr rfl
  · intro a ha b hb hab
    rw [hB1]
    unfold NeuralFabric.weight? MemoryCore.strengthen_pattern
    rw [strengthenList_creates (patList p) f (patList_nodup p)
      (fun u hu => hex u ((patList_mem p u).mp hu))
      (fun x hx y hy hxy => hnone x ((patList_mem p x).mp hx) y
        ((patList_mem p y).mp hy) hxy)
      a ((patList_mem p a).mpr ha) b ((patList_mem p b).mpr hb) hab]
    rfl

/-- C3 (witness): with the default threshold 3 on a fresh two-unit fabric,
two observations of {0, 1} do not consolidate it, three do, and both directed
links then carry weight 0.7. -/
theorem C3_witness :
    ({0, 1} : Finset ℕ) ∉ (MemoryCore.consolidate fabF
      (observeTimes (MemoryCore.init 3) {0, 1} 2)).2.consolidated_patterns ∧
    ({0, 1} : Finset ℕ) ∈ (MemoryCore.consolidate fabF
      (observeTimes (MemoryCore.init 3) {0, 1} 3)).2.consolidated_patterns ∧
    (MemoryCore.consolidate fabF
      (observeTimes (MemoryCore.init 3) {0, 1} 3)).1.weight? 0 1 = some (7 / 10) ∧
    (MemoryCore.consolidate fabF
      (observeTimes (MemoryCore.init 3) {0, 1} 3)).1.weight? 1 0 = some (7 / 10) := by
  have h := C3_consolidation_threshold fabF {0, 1} 3 (by decide) (by decide)
    (by decide) (by decide) (by decide)
  exact ⟨h.1, h.2.1, h.2.2 0 (by decide) 1 (by decide) (by decide),
    h.2.2 1 (by decide) 0 (by decide) (by decide)⟩

end Jarvis
